import Mathlib

/-!
Verification development for the SipNSnack point-of-sale back end.

This file shallowly embeds the data model and the request handlers of the
repository (Django REST views under `pos/apps`) as pure Lean functions over an
explicit `Store` state, and proves the specified authorization and integrity
properties about them.

Embedding conventions:
* the database is a `Store` value; every handler maps a requesting user, a
  request payload and a store to an HTTP-like status plus the resulting store;
* Django model instances compare equal iff their primary keys are equal, so
  the embedding identifies rows by `id`;
* `request.user` is the row of the authenticated user; places where the code
  re-fetches the requesting user by its own id (`get_object_or_404(User,
  id=request.user.id)`) return that same row and are embedded by reading the
  passed user directly;
* request dictionaries become structures of `Option` fields (`none` = key
  absent); Python truthiness of a list value is `none` or `some []`;
* monetary amounts (`DecimalField`) are embedded as exact integers;
* the timestamp/random component of generated order numbers is abstracted to a
  deterministic string, since no proved property concerns order numbers.
-/

/-- HTTP statuses returned by the handlers. -/
inductive HStatus
  | ok200
  | created201
  | noContent204
  | badRequest400
  | unauthorized401
  | forbidden403
  | notFound404
  | serverError500
deriving DecidableEq, Repr

/-- True for the client- and server-error statuses (4xx and 5xx). -/
def HStatus.isError : HStatus → Bool
  | .badRequest400 | .unauthorized401 | .forbidden403 | .notFound404 | .serverError500 => true
  | _ => false

/-- Row of `LocationModel` (pos/apps/locations/models.py, fields used by the views). -/
structure Location where
  id : Nat
  name : String
  address : String
  city : String
  state : String
  phone : Option String
deriving DecidableEq, Repr

/-- Modelled from the spec: the custom `User` model of `pos.apps.accounts` is not
under src/ (only its views and serializers are). Per the spec data model, a
principal has an id, a role given by the exclusive flags SuperAdmin /
FranchiseAdmin / Staff, an assigned set of location ids (many-to-many), and an
optional creator. `isAuthenticated` embeds `request.user.is_authenticated`. -/
structure User where
  id : Nat
  email : String
  firstName : String
  lastName : String
  password : String
  isAuthenticated : Bool
  isSuperAdmin : Bool
  isFranchiseAdmin : Bool
  isStaffMember : Bool
  locations : List Nat
  createdBy : Option Nat
deriving DecidableEq, Repr

/-- Row of `CategoryModel` (fields used by the views). -/
structure Category where
  id : Nat
  name : String
  locationId : Nat
  displayOrder : Int
deriving DecidableEq, Repr

/-- Row of `MenuItemModel` (fields used by the views). -/
structure MenuItem where
  id : Nat
  name : String
  price : Int
  categoryId : Nat
  locationId : Nat
  isAvailable : Bool
deriving DecidableEq, Repr

/-- Row of `Order` (pos/apps/orders/models.py). `orderDate` is an abstract
timestamp used only for ordering listings. -/
structure Order where
  id : Nat
  locationId : Nat
  orderNumber : String
  orderDate : Nat
  totalAmount : Int
  processedBy : Option Nat
deriving DecidableEq, Repr

/-- Row of `OrderItem` (pos/apps/orders/models.py). -/
structure OrderItem where
  id : Nat
  orderId : Nat
  menuItemId : Nat
  quantity : Nat
  price : Int
deriving DecidableEq, Repr

/-- The persistence layer: one list per table plus a fresh-id counter for
autoincrement primary keys. -/
structure Store where
  users : List User
  locations : List Location
  categories : List Category
  menuItems : List MenuItem
  orders : List Order
  orderItems : List OrderItem
  nextId : Nat
deriving DecidableEq, Repr

def findUser (s : Store) (i : Nat) : Option User :=
  s.users.find? (fun u => u.id == i)

/-- `get_object_or_404(User, id=i, is_franchise_admin=True)`. -/
def findFranchiseAdmin (s : Store) (i : Nat) : Option User :=
  s.users.find? (fun u => u.id == i && u.isFranchiseAdmin)

/-- `get_object_or_404(User, id=i, is_staff_member=True)`. -/
def findStaff (s : Store) (i : Nat) : Option User :=
  s.users.find? (fun u => u.id == i && u.isStaffMember)

def findLocation (s : Store) (i : Nat) : Option Location :=
  s.locations.find? (fun l => l.id == i)

def findCategory (s : Store) (i : Nat) : Option Category :=
  s.categories.find? (fun c => c.id == i)

def findMenuItem (s : Store) (i : Nat) : Option MenuItem :=
  s.menuItems.find? (fun m => m.id == i)

def findOrder (s : Store) (i : Nat) : Option Order :=
  s.orders.find? (fun o => o.id == i)

/-- `LocationModel.objects.filter(id__in=ids)`: the existing rows among `ids`. -/
def existingLocations (s : Store) (ids : List Nat) : List Location :=
  s.locations.filter (fun l => ids.contains l.id)

def Store.addUser (s : Store) (u : User) : Store :=
  { s with users := s.users ++ [u], nextId := s.nextId + 1 }

def Store.setUser (s : Store) (u : User) : Store :=
  { s with users := s.users.map (fun v => if v.id == u.id then u else v) }

def Store.delUser (s : Store) (i : Nat) : Store :=
  { s with users := s.users.filter (fun v => v.id != i) }

/-- Outcome of a state-changing handler: a status and the resulting store. -/
structure WriteResult where
  status : HStatus
  store : Store
deriving DecidableEq, Repr

/-- Python truthiness of an optional list value: `None` and `[]` are falsy. -/
def truthyList (v : Option (List Nat)) : Bool :=
  match v with
  | none => false
  | some l => !l.isEmpty

namespace FranchiseAdminView

/-- Request body for `FranchiseAdminView.post`. -/
structure PostReq where
  email : Option String
  password : Option String
  firstName : Option String
  lastName : Option String
  locationIds : Option (List Nat)
deriving DecidableEq, Repr

/-- FranchiseAdminView.post (src/pos/apps/accounts/_views/franchise_admin.py):
create a franchise admin; the admin row is created first and compensatingly
deleted when the location checks fail. `User.objects.create_user` is not under
src/; modelled from the spec: it inserts a fresh FranchiseAdmin principal with
the given fields, creator, and no locations. -/
def post (u : User) (req : PostReq) (s : Store) : WriteResult :=
  if !u.isAuthenticated then ⟨.unauthorized401, s⟩
  else if !(u.isSuperAdmin || u.isFranchiseAdmin) then ⟨.forbidden403, s⟩
  else
    match req.email, req.password, req.firstName, req.lastName with
    | some e, some pw, some fn, some ln =>
      let admin : User :=
        { id := s.nextId, email := e, firstName := fn, lastName := ln, password := pw
          isAuthenticated := true, isSuperAdmin := false, isFranchiseAdmin := true
          isStaffMember := false, locations := [], createdBy := some u.id }
      let s1 := s.addUser admin
      if truthyList req.locationIds then
        let ids := req.locationIds.getD []
        if u.isFranchiseAdmin && !(ids.all (fun i => u.locations.contains i)) then
          ⟨.forbidden403, s1.delUser admin.id⟩
        else
          let locs := existingLocations s ids
          if locs.length != ids.length then
            ⟨.badRequest400, s1.delUser admin.id⟩
          else
            ⟨.created201, s1.setUser { admin with locations := locs.map (·.id) }⟩
      else
        ⟨.created201, s1⟩
    | _, _, _, _ => ⟨.badRequest400, s⟩

/-- Request body for `FranchiseAdminView.patch`. -/
structure PatchReq where
  id : Option Nat
  firstName : Option String
  lastName : Option String
  email : Option String
  locationIds : Option (List Nat)
  password : Option String
deriving DecidableEq, Repr

/-- Apply the `first_name`/`last_name`/`email`/`password` field updates of an
account-patch request to a user row. -/
def applyUserFields (req : PatchReq) (a : User) : User :=
  let a := match req.firstName with | some v => { a with firstName := v } | none => a
  let a := match req.lastName with | some v => { a with lastName := v } | none => a
  let a := match req.email with | some v => { a with email := v } | none => a
  match req.password with | some v => { a with password := v } | none => a

/-- FranchiseAdminView.patch: update an admin. A franchise-admin requester may
update itself, or an admin it created whose locations are a subset of its own;
the location-scope check on supplied `location_ids` is skipped when the target
is the requester itself. A missing target raises inside the try block and is
reported as 500. -/
def patch (u : User) (req : PatchReq) (s : Store) : WriteResult :=
  if !u.isAuthenticated then ⟨.unauthorized401, s⟩
  else if u.isStaffMember then ⟨.forbidden403, s⟩
  else if !(u.isSuperAdmin || u.isFranchiseAdmin) then ⟨.forbidden403, s⟩
  else
    match req.id with
    | none => ⟨.badRequest400, s⟩
    | some tid =>
      match findFranchiseAdmin s tid with
      | none => ⟨.serverError500, s⟩
      | some admin =>
        if u.isFranchiseAdmin &&
            !(admin.id == u.id ||
              (admin.createdBy == some u.id &&
                admin.locations.all (fun i => u.locations.contains i))) then
          ⟨.forbidden403, s⟩
        else if u.isFranchiseAdmin && truthyList req.locationIds && admin.id != u.id &&
            !((req.locationIds.getD []).all (fun i => u.locations.contains i)) then
          ⟨.forbidden403, s⟩
        else
          let admin1 := applyUserFields req admin
          if truthyList req.locationIds then
            let ids := req.locationIds.getD []
            let locs := existingLocations s ids
            if locs.length != ids.length then
              ⟨.badRequest400, s⟩
            else
              ⟨.ok200, s.setUser { admin1 with locations := locs.map (·.id) }⟩
          else
            ⟨.ok200, s.setUser admin1⟩

/-- FranchiseAdminView.delete: delete an admin the requester created whose
locations are a subset of the requester locations; a missing target raises
inside the try block and is reported as 500. -/
def delete (u : User) (qid : Option Nat) (s : Store) : WriteResult :=
  if !u.isAuthenticated then ⟨.unauthorized401, s⟩
  else if u.isStaffMember then ⟨.forbidden403, s⟩
  else if !(u.isSuperAdmin || u.isFranchiseAdmin) then ⟨.forbidden403, s⟩
  else
    match qid with
    | none => ⟨.badRequest400, s⟩
    | some tid =>
      match findFranchiseAdmin s tid with
      | none => ⟨.serverError500, s⟩
      | some admin =>
        if u.isFranchiseAdmin &&
            !(admin.createdBy == some u.id &&
              admin.locations.all (fun i => u.locations.contains i)) then
          ⟨.forbidden403, s⟩
        else
          ⟨.noContent204, s.delUser admin.id⟩

end FranchiseAdminView

namespace StaffView

/-- Request body for `StaffView.post`; same keys as the admin-create request. -/
structure PostReq where
  email : Option String
  password : Option String
  firstName : Option String
  lastName : Option String
  locationIds : Option (List Nat)
deriving DecidableEq, Repr

/-- StaffView.post (src/pos/apps/accounts/_views/staff.py): create a staff
member. `User.objects.create_staff_user` is not under src/; modelled from the
spec: it inserts a fresh Staff principal with the given fields and locations. -/
def post (u : User) (req : PostReq) (s : Store) : WriteResult :=
  match req.email, req.password, req.firstName, req.lastName, req.locationIds with
  | some e, some pw, some fn, some ln, some ids =>
    if ids.isEmpty then ⟨.badRequest400, s⟩
    else
      let mkStaff (locs : List Nat) : User :=
        { id := s.nextId, email := e, firstName := fn, lastName := ln, password := pw
          isAuthenticated := true, isSuperAdmin := false, isFranchiseAdmin := false
          isStaffMember := true, locations := locs, createdBy := none }
      if u.isSuperAdmin then
        let locs := existingLocations s ids
        if locs.length != ids.length then ⟨.badRequest400, s⟩
        else ⟨.created201, s.addUser (mkStaff (locs.map (·.id)))⟩
      else if u.isFranchiseAdmin then
        if !(ids.all (fun i => u.locations.contains i)) then ⟨.forbidden403, s⟩
        else
          let locs := existingLocations s ids
          ⟨.created201, s.addUser (mkStaff (locs.map (·.id)))⟩
      else ⟨.forbidden403, s⟩
  | _, _, _, _, _ => ⟨.badRequest400, s⟩

/-- StaffView.patch: update a staff member. A franchise-admin requester needs a
non-empty overlap between the target locations and its own, and any supplied
`location_ids` must lie within its own; an empty supplied list is a validation
error; the new location set is the existing rows among the supplied ids. A
missing target is reported as 404 by the surrounding except clause. -/
def patch (u : User) (req : FranchiseAdminView.PatchReq) (s : Store) : WriteResult :=
  if u.isStaffMember then ⟨.forbidden403, s⟩
  else
    match req.id with
    | none => ⟨.badRequest400, s⟩
    | some tid =>
      match findStaff s tid with
      | none => ⟨.notFound404, s⟩
      | some staff =>
        if u.isFranchiseAdmin &&
            !(staff.locations.any (fun i => u.locations.contains i)) then
          ⟨.forbidden403, s⟩
        else if u.isFranchiseAdmin && req.locationIds.isSome &&
            !((req.locationIds.getD []).all (fun i => u.locations.contains i)) then
          ⟨.forbidden403, s⟩
        else if u.isFranchiseAdmin && req.locationIds == some [] then
          ⟨.badRequest400, s⟩
        else
          let staff1 := FranchiseAdminView.applyUserFields req staff
          match req.locationIds with
          | some ids =>
            if ids.isEmpty then ⟨.badRequest400, s⟩
            else
              let locs := existingLocations s ids
              ⟨.ok200, s.setUser { staff1 with locations := locs.map (·.id) }⟩
          | none => ⟨.ok200, s.setUser staff1⟩

/-- StaffView.delete: a super admin may delete any staff member; a franchise
admin needs a non-empty location overlap with the target; a missing target is
reported as 404 by the surrounding except clause. -/
def delete (u : User) (qid : Option Nat) (s : Store) : WriteResult :=
  match qid with
  | none => ⟨.badRequest400, s⟩
  | some tid =>
    match findStaff s tid with
    | none => ⟨.notFound404, s⟩
    | some staff =>
      if u.isSuperAdmin then ⟨.noContent204, s.delUser staff.id⟩
      else if u.isFranchiseAdmin then
        if !(staff.locations.any (fun i => u.locations.contains i)) then
          ⟨.forbidden403, s⟩
        else ⟨.noContent204, s.delUser staff.id⟩
      else ⟨.forbidden403, s⟩

end StaffView

def Store.addCategory (s : Store) (c : Category) : Store :=
  { s with categories := s.categories ++ [c], nextId := s.nextId + 1 }

def Store.setCategory (s : Store) (c : Category) : Store :=
  { s with categories := s.categories.map (fun d => if d.id == c.id then c else d) }

def Store.delCategory (s : Store) (i : Nat) : Store :=
  { s with categories := s.categories.filter (fun d => d.id != i) }

def Store.addMenuItem (s : Store) (m : MenuItem) : Store :=
  { s with menuItems := s.menuItems ++ [m], nextId := s.nextId + 1 }

def Store.setMenuItem (s : Store) (m : MenuItem) : Store :=
  { s with menuItems := s.menuItems.map (fun n => if n.id == m.id then m else n) }

def Store.delMenuItem (s : Store) (i : Nat) : Store :=
  { s with menuItems := s.menuItems.filter (fun n => n.id != i) }

def Store.addLocation (s : Store) (l : Location) : Store :=
  { s with locations := s.locations ++ [l], nextId := s.nextId + 1 }

def Store.setLocation (s : Store) (l : Location) : Store :=
  { s with locations := s.locations.map (fun m => if m.id == l.id then l else m) }

/-- Deleting a location cascades, per the spec lifecycle, to owned categories,
menu items and orders (and their order items), and drops the membership rows
assigning the location to principals. -/
def Store.delLocation (s : Store) (i : Nat) : Store :=
  let deadOrders := (s.orders.filter (fun o => o.locationId == i)).map (·.id)
  { s with
    locations := s.locations.filter (fun l => l.id != i)
    categories := s.categories.filter (fun c => c.locationId != i)
    menuItems := s.menuItems.filter (fun m => m.locationId != i)
    orders := s.orders.filter (fun o => o.locationId != i)
    orderItems := s.orderItems.filter (fun oi => !(deadOrders.contains oi.orderId))
    users := s.users.map (fun u => { u with locations := u.locations.filter (fun l => l != i) }) }

/-- Insert `x` into `l`, before the first element `y` with `le x y` true; the
helper of a stable insertion sort. -/
def insertSorted (le : α → α → Bool) (x : α) : List α → List α
  | [] => [x]
  | y :: ys => if le x y then x :: y :: ys else y :: insertSorted le x ys

/-- Stable insertion sort embedding the `order_by` clauses of the list
endpoints: ties keep insertion order. -/
def sortByLe (le : α → α → Bool) : List α → List α
  | [] => []
  | x :: xs => insertSorted le x (sortByLe le xs)

theorem mem_insertSorted (le : α → α → Bool) (x a : α) (l : List α) :
    a ∈ insertSorted le x l ↔ a ∈ x :: l := by
  induction l with
  | nil => simp [insertSorted]
  | cons y ys ih =>
    simp only [insertSorted]
    split
    · rfl
    · simp only [List.mem_cons] at ih ⊢
      tauto

theorem mem_sortByLe (le : α → α → Bool) (a : α) (l : List α) :
    a ∈ sortByLe le l ↔ a ∈ l := by
  induction l with
  | nil => rfl
  | cons x xs ih =>
    simp only [sortByLe, mem_insertSorted, List.mem_cons, ih]

namespace MenuItemsView

/-- Single-item branch of MenuItemsView.get (src/pos/apps/menu/_views/MenuItems.py):
look up an available menu item; super admins read anything, franchise admins
and staff read only items of their assigned locations. -/
def getSingle (u : User) (itemId : Nat) (s : Store) : HStatus :=
  match s.menuItems.find? (fun m => m.id == itemId && m.isAvailable) with
  | none => .notFound404
  | some item =>
    if u.isSuperAdmin then .ok200
    else if u.isFranchiseAdmin || u.isStaffMember then
      if !(u.locations.contains item.locationId) then .forbidden403 else .ok200
    else .forbidden403

/-- Request body for `MenuItemsView.post`. -/
structure PostReq where
  name : String
  price : Int
  categoryId : Option Nat
  locationId : Option Nat
deriving DecidableEq, Repr

/-- MenuItemsView.post: create a menu item; the referenced category must belong
to the requested location, and a franchise admin must be assigned the requested
location. Failed model lookups raise inside the try block and are reported
as 400. -/
def post (u : User) (req : PostReq) (s : Store) : WriteResult :=
  if !(u.isSuperAdmin || u.isFranchiseAdmin) then ⟨.forbidden403, s⟩
  else
    match req.categoryId.bind (findCategory s) with
    | none => ⟨.badRequest400, s⟩
    | some category =>
      if some category.locationId != req.locationId then ⟨.badRequest400, s⟩
      else
        match req.locationId.bind (findLocation s) with
        | none => ⟨.badRequest400, s⟩
        | some location =>
          if u.isFranchiseAdmin && !(u.locations.contains location.id) then
            ⟨.forbidden403, s⟩
          else
            ⟨.created201,
              s.addMenuItem
                { id := s.nextId, name := req.name, price := req.price
                  categoryId := category.id, locationId := location.id, isAvailable := true }⟩

/-- Request body for `MenuItemsView.put`. -/
structure PutReq where
  id : Option Nat
  name : Option String
  price : Option Int
  categoryId : Option Nat
  locationId : Option Nat
deriving DecidableEq, Repr

/-- MenuItemsView.put: partially update a menu item. The category/location
referential check runs only when `category_id` is supplied; supplying only
`location_id` moves the item without re-validating its category. -/
def put (u : User) (req : PutReq) (s : Store) : WriteResult :=
  if !(u.isSuperAdmin || u.isFranchiseAdmin) then ⟨.forbidden403, s⟩
  else
    match req.id.bind (findMenuItem s) with
    | none => ⟨.badRequest400, s⟩
    | some item =>
      if u.isFranchiseAdmin &&
          !(u.locations.contains (req.locationId.getD item.locationId)) then
        ⟨.forbidden403, s⟩
      else
        let item1 := match req.name with | some v => { item with name := v } | none => item
        let item2 := match req.price with | some v => { item1 with price := v } | none => item1
        let applyLoc (it : MenuItem) : WriteResult :=
          match req.locationId with
          | some lid =>
            match findLocation s lid with
            | none => ⟨.badRequest400, s⟩
            | some loc => ⟨.ok200, s.setMenuItem { it with locationId := loc.id }⟩
          | none => ⟨.ok200, s.setMenuItem it⟩
        match req.categoryId with
        | some cid =>
          match findCategory s cid with
          | none => ⟨.badRequest400, s⟩
          | some category =>
            if category.locationId != req.locationId.getD item.locationId then
              ⟨.badRequest400, s⟩
            else
              applyLoc { item2 with categoryId := category.id }
        | none => applyLoc item2

/-- MenuItemsView.delete: the missing-id lookup raises Http404 inside the try
block, whose generic except clause reports it as 400. -/
def delete (u : User) (reqId : Option Nat) (s : Store) : WriteResult :=
  if !(u.isSuperAdmin || u.isFranchiseAdmin) then ⟨.forbidden403, s⟩
  else
    match reqId with
    | none => ⟨.badRequest400, s⟩
    | some iid =>
      match findMenuItem s iid with
      | none => ⟨.badRequest400, s⟩
      | some item =>
        if u.isFranchiseAdmin && !(u.locations.contains item.locationId) then
          ⟨.forbidden403, s⟩
        else
          ⟨.noContent204, s.delMenuItem item.id⟩

end MenuItemsView

/-- CategoryView._check_franchise_admin_locations: every given location id is
among the locations assigned to the requesting franchise admin. -/
def checkFranchiseAdminLocations (u : User) (ids : List Nat) : Bool :=
  ids.all (fun i => u.locations.contains i)

namespace CategoryView

/-- Status plus the serialized category rows of the list endpoint. -/
structure ListResult where
  status : HStatus
  categories : List Category
deriving DecidableEq, Repr

/-- CategoryView.get (src/pos/apps/menu/_views/CategoryView.py): list the
categories visible to the requester, ordered by display order ascending. -/
def get (u : User) (s : Store) : ListResult :=
  if u.isSuperAdmin then
    ⟨.ok200, sortByLe (fun a b => decide (a.displayOrder ≤ b.displayOrder)) s.categories⟩
  else if u.isFranchiseAdmin || u.isStaffMember then
    ⟨.ok200, sortByLe (fun a b => decide (a.displayOrder ≤ b.displayOrder))
      (s.categories.filter (fun c => u.locations.contains c.locationId))⟩
  else ⟨.forbidden403, []⟩

/-- Request body for `CategoryView.post`. -/
structure PostReq where
  name : Option String
  locationId : Option Nat
  displayOrder : Option Int
deriving DecidableEq, Repr

/-- CategoryView.post: create a category after validating name, location id and
display order; super admins anywhere, franchise admins only in their assigned
locations. A location id of 0 is falsy in the source and rejected. -/
def post (u : User) (req : PostReq) (s : Store) : WriteResult :=
  let nameInvalid := match req.name with | none => true | some n => n.trim == ""
  if nameInvalid then ⟨.badRequest400, s⟩
  else
    let locInvalid := match req.locationId with | none => true | some l => l == 0
    if locInvalid then ⟨.badRequest400, s⟩
    else
      let dOrder := req.displayOrder.getD 0
      if dOrder < 0 then ⟨.badRequest400, s⟩
      else
        match findLocation s (req.locationId.getD 0) with
        | none => ⟨.badRequest400, s⟩
        | some loc =>
          let newCat : Category :=
            { id := s.nextId, name := (req.name.getD "").trim
              locationId := loc.id, displayOrder := dOrder }
          if u.isSuperAdmin then
            ⟨.created201, s.addCategory newCat⟩
          else if u.isFranchiseAdmin then
            if !(checkFranchiseAdminLocations u [loc.id]) then ⟨.forbidden403, s⟩
            else ⟨.created201, s.addCategory newCat⟩
          else ⟨.forbidden403, s⟩

/-- Request body for `CategoryView.put`. -/
structure PutReq where
  id : Option Nat
  name : Option String
  locationId : Option Nat
  displayOrder : Option Int
deriving DecidableEq, Repr

/-- CategoryView.put: partially update a category; a franchise admin must be
assigned both the current and the new location. Truthiness of the source is
kept: an id or location id of 0 and an empty name behave as absent. -/
def put (u : User) (req : PutReq) (s : Store) : WriteResult :=
  let cidInvalid := match req.id with | none => true | some i => i == 0
  if cidInvalid then ⟨.badRequest400, s⟩
  else
    match findCategory s (req.id.getD 0) with
    | none => ⟨.notFound404, s⟩
    | some category =>
      let nameBad := match req.name with
        | some n => !(n == "") && n.trim == ""
        | none => false
      if nameBad then ⟨.badRequest400, s⟩
      else
        let dBad := match req.displayOrder with | some d => decide (d < 0) | none => false
        if dBad then ⟨.badRequest400, s⟩
        else
          let locTruthy := match req.locationId with | some l => !(l == 0) | none => false
          let applyCat : WriteResult :=
            let c1 := match req.name with
              | some n => if n == "" then category else { category with name := n.trim }
              | none => category
            let c2 := match req.displayOrder with
              | some d => { c1 with displayOrder := d }
              | none => c1
            if locTruthy then
              match findLocation s (req.locationId.getD 0) with
              | none => ⟨.badRequest400, s⟩
              | some loc => ⟨.ok200, s.setCategory { c2 with locationId := loc.id }⟩
            else ⟨.ok200, s.setCategory c2⟩
          if u.isSuperAdmin then applyCat
          else if u.isFranchiseAdmin then
            let newLocId := if locTruthy then req.locationId.getD 0 else category.locationId
            if !(checkFranchiseAdminLocations u [category.locationId, newLocId]) then
              ⟨.forbidden403, s⟩
            else applyCat
          else ⟨.forbidden403, s⟩

/-- CategoryView.delete: super admins anywhere, franchise admins only for
categories of their assigned locations; a missing id is a 404. -/
def delete (u : User) (reqId : Option Nat) (s : Store) : WriteResult :=
  let cidInvalid := match reqId with | none => true | some i => i == 0
  if cidInvalid then ⟨.badRequest400, s⟩
  else
    match findCategory s (reqId.getD 0) with
    | none => ⟨.notFound404, s⟩
    | some category =>
      if u.isSuperAdmin then ⟨.ok200, s.delCategory category.id⟩
      else if u.isFranchiseAdmin then
        if !(checkFranchiseAdminLocations u [category.locationId]) then ⟨.forbidden403, s⟩
        else ⟨.ok200, s.delCategory category.id⟩
      else ⟨.forbidden403, s⟩

end CategoryView

namespace LocationView

/-- Single-location branch of LocationView.get
(src/pos/apps/locations/_views/LocationView.py): super admins read any
location, franchise admins and staff only their assigned ones. -/
def getSingle (u : User) (lid : Nat) (s : Store) : HStatus :=
  if !(u.isSuperAdmin || u.isFranchiseAdmin || u.isStaffMember) then .forbidden403
  else
    match findLocation s lid with
    | none => .notFound404
    | some loc =>
      if u.isSuperAdmin then .ok200
      else if !(u.locations.contains loc.id) then .forbidden403
      else .ok200

/-- Request body for `LocationView.post`; absent fields default to empty. -/
structure PostReq where
  name : Option String
  address : Option String
  city : Option String
  state : Option String
  phone : Option String
deriving DecidableEq, Repr

/-- LocationView.post: create a location, super admin only. -/
def post (u : User) (req : PostReq) (s : Store) : WriteResult :=
  if !u.isSuperAdmin then ⟨.forbidden403, s⟩
  else
    ⟨.created201,
      s.addLocation
        { id := s.nextId, name := req.name.getD "", address := req.address.getD ""
          city := req.city.getD "", state := req.state.getD "", phone := req.phone }⟩

/-- Request body for `LocationView.patch`. -/
structure PatchReq where
  id : Option Nat
  name : Option String
  address : Option String
  city : Option String
  state : Option String
  phone : Option String
deriving DecidableEq, Repr

/-- LocationView.patch: update a location; super admins anywhere, franchise
admins only for locations assigned to them. -/
def patch (u : User) (req : PatchReq) (s : Store) : WriteResult :=
  if !(u.isSuperAdmin || u.isFranchiseAdmin) then ⟨.forbidden403, s⟩
  else
    match req.id with
    | none => ⟨.badRequest400, s⟩
    | some lid =>
      match findLocation s lid with
      | none => ⟨.notFound404, s⟩
      | some loc =>
        if u.isFranchiseAdmin && !(u.locations.contains loc.id) then
          ⟨.forbidden403, s⟩
        else
          let l1 := match req.name with | some v => { loc with name := v } | none => loc
          let l2 := match req.address with | some v => { l1 with address := v } | none => l1
          let l3 := match req.city with | some v => { l2 with city := v } | none => l2
          let l4 := match req.state with | some v => { l3 with state := v } | none => l3
          let l5 := match req.phone with | some v => { l4 with phone := some v } | none => l4
          ⟨.ok200, s.setLocation l5⟩

/-- LocationView.delete: super admin only; the success response carries
status 200 with a message. -/
def delete (u : User) (qid : Option Nat) (s : Store) : WriteResult :=
  if !u.isSuperAdmin then ⟨.forbidden403, s⟩
  else
    match qid with
    | none => ⟨.badRequest400, s⟩
    | some lid =>
      match findLocation s lid with
      | none => ⟨.notFound404, s⟩
      | some loc => ⟨.ok200, s.delLocation loc.id⟩

end LocationView

namespace OrderView

/-- One entry of the `items` list of a create-order request. -/
structure ItemReq where
  menuItemId : Option Nat
  quantity : Option Nat
deriving DecidableEq, Repr

/-- Request body for `OrderView.post`. `clientTotal` stands for any total the
client may put in the payload: the handler never reads it. -/
structure PostReq where
  locationId : Option Nat
  items : List ItemReq
  clientTotal : Option Int
deriving DecidableEq, Repr

/-- A request item resolved against the menu: the referenced menu item id, the
requested quantity (default 1) and the price snapshot taken from the menu. -/
structure Resolved where
  menuItemId : Nat
  quantity : Nat
  price : Int
deriving DecidableEq, Repr

/-- The item-processing loop of OrderView.post
(src/pos/apps/orders/_views/OrderView.py): resolve every requested item against
the menu, failing the whole request on the first unknown menu item id. -/
def resolveItems (s : Store) : List ItemReq → Option (List Resolved)
  | [] => some []
  | r :: rest =>
    match r.menuItemId.bind (findMenuItem s) with
    | none => none
    | some mi =>
      (resolveItems s rest).map
        (fun l => { menuItemId := mi.id, quantity := r.quantity.getD 1, price := mi.price } :: l)

/-- Build the `OrderItem` rows of a new order from the resolved items, with
consecutive fresh primary keys starting at `base`. -/
def mkOrderItems (oid : Nat) (base : Nat) : List Resolved → List OrderItem
  | [] => []
  | r :: rest =>
    { id := base, orderId := oid, menuItemId := r.menuItemId
      quantity := r.quantity, price := r.price } :: mkOrderItems oid (base + 1) rest

/-- OrderView.post: create an order (no authentication check in the source).
The total is computed server-side as the sum of menu price times quantity over
the requested items; the timestamp/random part of the generated order number
is abstracted. -/
def post (req : PostReq) (s : Store) : WriteResult :=
  match req.locationId.bind (findLocation s) with
  | none => ⟨.badRequest400, s⟩
  | some location =>
    if req.items.isEmpty then ⟨.badRequest400, s⟩
    else
      match resolveItems s req.items with
      | none => ⟨.badRequest400, s⟩
      | some rs =>
        let total := (rs.map (fun r => r.price * (r.quantity : Int))).sum
        let oid := s.nextId
        let order : Order :=
          { id := oid, locationId := location.id
            orderNumber := "ORD-" ++ toString location.id
            orderDate := s.nextId, totalAmount := total, processedBy := none }
        ⟨.created201,
          { s with
            orders := s.orders ++ [order]
            orderItems := s.orderItems ++ mkOrderItems oid (oid + 1) rs
            nextId := oid + 1 + rs.length }⟩

end OrderView

namespace OrderHistoryView

/-- Single-order branch of OrderHistoryView.get
(src/pos/apps/orders/_views/OrderHistoryView.py): super admins fetch any order;
franchise admins and staff only orders of their assigned locations (a scope
miss surfaces as 404 through `get_object_or_404` with the location filter);
the response construction joins the location row and, when set, the processor
row, and any lookup failure is caught by the surrounding except as 404. -/
def getSingle (u : User) (orderId : Nat) (s : Store) : HStatus :=
  if !u.isAuthenticated then .unauthorized401
  else
    let found : Option Order :=
      if u.isSuperAdmin then findOrder s orderId
      else if u.isFranchiseAdmin || u.isStaffMember then
        s.orders.find? (fun o => o.id == orderId && u.locations.contains o.locationId)
      else findOrder s orderId
    match found with
    | none => .notFound404
    | some o =>
      match findLocation s o.locationId with
      | none => .notFound404
      | some _ =>
        match o.processedBy with
        | some pid => match findUser s pid with | none => .notFound404 | some _ => .ok200
        | none => .ok200

/-- Status plus the listed orders of the history list endpoint. -/
structure ListResult where
  status : HStatus
  orders : List Order
deriving DecidableEq, Repr

/-- Filterless list branch of OrderHistoryView.get: super admins see all
orders, franchise admins and staff only those of their assigned locations,
newest first. -/
def getList (u : User) (s : Store) : ListResult :=
  if !u.isAuthenticated then ⟨.unauthorized401, []⟩
  else
    let base :=
      if u.isSuperAdmin then s.orders
      else if u.isFranchiseAdmin || u.isStaffMember then
        s.orders.filter (fun o => u.locations.contains o.locationId)
      else s.orders
    ⟨.ok200, sortByLe (fun a b => decide (b.orderDate ≤ a.orderDate)) base⟩

end OrderHistoryView

namespace Fixtures

/-- Location 1 of the concrete test store. -/
def locA : Location := ⟨1, "Main", "1 St", "C", "S", none⟩

/-- Location 2 of the concrete test store. -/
def locB : Location := ⟨2, "Branch", "2 St", "C", "S", none⟩

/-- A super admin. -/
def superU : User := ⟨100, "root@pos", "R", "T", "pw", true, true, false, false, [], none⟩

/-- A franchise admin assigned only location 1. -/
def adminU : User := ⟨10, "fa@pos", "F", "A", "pw", true, false, true, false, [1], none⟩

/-- A franchise admin assigned locations 1 and 2. -/
def adminW : User := ⟨11, "fa2@pos", "F", "B", "pw", true, false, true, false, [1, 2], none⟩

/-- A franchise admin assigned location 1, created by `adminU`. -/
def adminB : User := ⟨12, "fa3@pos", "F", "C", "pw", true, false, true, false, [1], some 10⟩

/-- A staff member assigned locations 1 and 2. -/
def staffT : User := ⟨20, "st@pos", "S", "T", "pw", true, false, false, true, [1, 2], none⟩

/-- A category at location 1. -/
def catA : Category := ⟨3, "drinks", 1, 0⟩

/-- A menu item at location 1 in category 3. -/
def itemA : MenuItem := ⟨4, "cola", 250, 3, 1, true⟩

/-- The concrete test store. -/
def baseStore : Store :=
  ⟨[superU, adminU, adminW, adminB, staffT], [locA, locB], [catA], [itemA], [], [], 50⟩

end Fixtures

/-- C1 counterexample: the claim says a mutation of a staff account by a
franchise admin is allowed only if the target location set is a subset of the
acting admin locations. In the code, `StaffView.patch` only requires a
non-empty overlap: an admin assigned only location 1 successfully updates a
staff member assigned locations 1 and 2. -/
theorem C1_counterexample :
    (StaffView.patch Fixtures.adminU
      { id := some 20, firstName := some "X", lastName := none, email := none
        locationIds := none, password := none } Fixtures.baseStore).status = HStatus.ok200
    ∧ ¬ (∀ l ∈ Fixtures.staffT.locations, l ∈ Fixtures.adminU.locations) := by
  constructor
  · decide
  · decide


theorem anyContains_iff (xs ys : List Nat) :
    (xs.any (fun i => ys.contains i) = true) ↔ ∃ l ∈ xs, l ∈ ys := by
  simp [List.any_eq_true, List.contains, List.elem_iff]

theorem allContains_iff (xs ys : List Nat) :
    (xs.all (fun i => ys.contains i) = true) ↔ ∀ l ∈ xs, l ∈ ys := by
  simp [List.all_eq_true, List.contains, List.elem_iff]

/-- Access characterization of a field-only staff update by a franchise admin:
allowed exactly on a non-empty location overlap. -/
theorem staffPatch_fieldOnly_status (u tgt : User) (s : Store) (sid : Nat) (fn : String)
    (hSt : u.isStaffMember = false) (hFA : u.isFranchiseAdmin = true)
    (hS : findStaff s sid = some tgt) :
    (StaffView.patch u ⟨some sid, some fn, none, none, none, none⟩ s).status = HStatus.ok200
      ↔ ∃ l ∈ tgt.locations, l ∈ u.locations := by
  simp only [StaffView.patch, hSt, hS, hFA, Bool.false_eq_true, if_false]
  cases h : tgt.locations.any (fun i => u.locations.contains i) with
  | true =>
    have hov := (anyContains_iff _ _).mp h
    simp [h, hov]
  | false =>
    have hov : ¬ ∃ l ∈ tgt.locations, l ∈ u.locations := by
      rw [← anyContains_iff tgt.locations u.locations, h]; simp
    simp [h, hov]

/-- Access characterization of a staff delete by a franchise admin: allowed
exactly on a non-empty location overlap. -/
theorem staffDelete_status (u tgt : User) (s : Store) (sid : Nat)
    (hSA : u.isSuperAdmin = false) (hFA : u.isFranchiseAdmin = true)
    (hS : findStaff s sid = some tgt) :
    (StaffView.delete u (some sid) s).status = HStatus.noContent204
      ↔ ∃ l ∈ tgt.locations, l ∈ u.locations := by
  simp only [StaffView.delete, hS, hSA, hFA, Bool.false_eq_true, if_false, if_true]
  cases h : tgt.locations.any (fun i => u.locations.contains i) with
  | true =>
    have hov := (anyContains_iff _ _).mp h
    simp [h, hov]
  | false =>
    have hov : ¬ ∃ l ∈ tgt.locations, l ∈ u.locations := by
      rw [← anyContains_iff tgt.locations u.locations, h]; simp
    simp [h, hov]

/-- Access characterization of a field-only admin update by a franchise admin:
allowed exactly for the requester itself or for an admin it created whose
locations are a subset of its own. -/
theorem franchiseAdminPatch_fieldOnly_status (u tgt : User) (s : Store) (aid : Nat) (fn : String)
    (hauth : u.isAuthenticated = true) (hSt : u.isStaffMember = false)
    (hFA : u.isFranchiseAdmin = true)
    (hA : findFranchiseAdmin s aid = some tgt) :
    (FranchiseAdminView.patch u ⟨some aid, some fn, none, none, none, none⟩ s).status
        = HStatus.ok200
      ↔ (tgt.id = u.id ∨ (tgt.createdBy = some u.id ∧ ∀ l ∈ tgt.locations, l ∈ u.locations)) := by
  simp only [FranchiseAdminView.patch, hauth, hSt, hFA, hA, Bool.not_true, Bool.false_eq_true,
    if_false, Bool.or_true, if_true]
  cases h : (tgt.id == u.id ||
      (tgt.createdBy == some u.id && tgt.locations.all (fun i => u.locations.contains i))) with
  | true =>
    have hacc : tgt.id = u.id ∨ (tgt.createdBy = some u.id ∧ ∀ l ∈ tgt.locations, l ∈ u.locations) := by
      rcases Bool.or_eq_true_iff.mp h with h1 | h2
      · exact Or.inl (by simpa using h1)
      · rcases Bool.and_eq_true_iff.mp h2 with ⟨h3, h4⟩
        exact Or.inr ⟨by simpa using h3, (allContains_iff _ _).mp h4⟩
    simp only [h, truthyList]
    simp
    exact hacc
  | false =>
    have hacc : ¬ (tgt.id = u.id ∨ (tgt.createdBy = some u.id ∧ ∀ l ∈ tgt.locations, l ∈ u.locations)) := by
      intro hc
      have hb : (tgt.id == u.id ||
          (tgt.createdBy == some u.id && tgt.locations.all (fun i => u.locations.contains i))) = true := by
        rcases hc with h1 | ⟨h2, h3⟩
        · exact Bool.or_eq_true_iff.mpr (Or.inl (by simp [h1]))
        · refine Bool.or_eq_true_iff.mpr (Or.inr (Bool.and_eq_true_iff.mpr ⟨?_, ?_⟩))
          · simp [h2]
          · exact (allContains_iff _ _).mpr h3
      rw [h] at hb; cases hb
    simp [h]
    push_neg at hacc
    exact hacc

/-- Access characterization of an admin delete by a franchise admin: allowed
exactly for an admin the requester created whose locations are a subset of the
requester locations. -/
theorem franchiseAdminDelete_status (u tgt : User) (s : Store) (aid : Nat)
    (hauth : u.isAuthenticated = true) (hSt : u.isStaffMember = false)
    (hFA : u.isFranchiseAdmin = true)
    (hA : findFranchiseAdmin s aid = some tgt) :
    (FranchiseAdminView.delete u (some aid) s).status = HStatus.noContent204
      ↔ (tgt.createdBy = some u.id ∧ ∀ l ∈ tgt.locations, l ∈ u.locations) := by
  simp only [FranchiseAdminView.delete, hauth, hSt, hFA, hA, Bool.not_true, Bool.false_eq_true,
    if_false, Bool.or_true, if_true]
  cases h : (tgt.createdBy == some u.id && tgt.locations.all (fun i => u.locations.contains i)) with
  | true =>
    rcases Bool.and_eq_true_iff.mp h with ⟨h1, h2⟩
    have hacc : tgt.createdBy = some u.id ∧ ∀ l ∈ tgt.locations, l ∈ u.locations :=
      ⟨by simpa using h1, (allContains_iff _ _).mp h2⟩
    simp [h]
    exact hacc
  | false =>
    have hacc : ¬ (tgt.createdBy = some u.id ∧ ∀ l ∈ tgt.locations, l ∈ u.locations) := by
      intro ⟨h1, h2⟩
      have hb : (tgt.createdBy == some u.id &&
          tgt.locations.all (fun i => u.locations.contains i)) = true := by
        refine Bool.and_eq_true_iff.mpr ⟨?_, (allContains_iff _ _).mpr h2⟩
        simp [h1]
      rw [h] at hb; cases hb
    simp [h]
    push_neg at hacc
    exact hacc

/-- C1 amended: for a franchise-admin actor, account mutations are gated as
follows. Update and delete of a Staff account require a non-empty overlap
between the target and actor location sets, not a subset. Update of a
FranchiseAdmin account requires the target to be the actor itself, or to have
been created by the actor and to have locations a subset of the actor
locations; delete of a FranchiseAdmin account requires creatorship plus the
subset check. Creation of either kind of account requires every requested
location id to be among the actor locations. -/
theorem C1_amended_franchiseAdmin_mutation_rules
    (u tgtS tgtA : User) (s : Store) (sid aid : Nat) (fn : String)
    (hauth : u.isAuthenticated = true)
    (hFA : u.isFranchiseAdmin = true)
    (hSA : u.isSuperAdmin = false)
    (hSt : u.isStaffMember = false)
    (hS : findStaff s sid = some tgtS)
    (hA : findFranchiseAdmin s aid = some tgtA) :
    ((StaffView.patch u ⟨some sid, some fn, none, none, none, none⟩ s).status = HStatus.ok200
      ↔ ∃ l ∈ tgtS.locations, l ∈ u.locations)
    ∧ ((StaffView.delete u (some sid) s).status = HStatus.noContent204
      ↔ ∃ l ∈ tgtS.locations, l ∈ u.locations)
    ∧ ((FranchiseAdminView.patch u ⟨some aid, some fn, none, none, none, none⟩ s).status
        = HStatus.ok200
      ↔ (tgtA.id = u.id ∨ (tgtA.createdBy = some u.id ∧ ∀ l ∈ tgtA.locations, l ∈ u.locations)))
    ∧ ((FranchiseAdminView.delete u (some aid) s).status = HStatus.noContent204
      ↔ (tgtA.createdBy = some u.id ∧ ∀ l ∈ tgtA.locations, l ∈ u.locations))
    ∧ (∀ req : StaffView.PostReq,
        (StaffView.post u req s).status = HStatus.created201 →
        ∀ i ∈ req.locationIds.getD [], i ∈ u.locations)
    ∧ (∀ req : FranchiseAdminView.PostReq,
        (FranchiseAdminView.post u req s).status = HStatus.created201 →
        ∀ i ∈ req.locationIds.getD [], i ∈ u.locations) := by
  refine ⟨staffPatch_fieldOnly_status u tgtS s sid fn hSt hFA hS,
    staffDelete_status u tgtS s sid hSA hFA hS,
    franchiseAdminPatch_fieldOnly_status u tgtA s aid fn hauth hSt hFA hA,
    franchiseAdminDelete_status u tgtA s aid hauth hSt hFA hA, ?_, ?_⟩
  · intro req h
    rcases req with ⟨e, pw, fn', ln, ids⟩
    cases e <;> cases pw <;> cases fn' <;> cases ln <;> cases ids <;>
      simp only [StaffView.post, hSA, hFA, Bool.false_eq_true, if_false, if_true] at h ⊢
    all_goals first
      | (intro i hi; cases h)
      | skip
    case some.some.some.some.some e pw fn' ln ids =>
      by_cases hemp : ids.isEmpty
      · simp [hemp] at h
      · simp only [hemp, Bool.false_eq_true, if_false] at h
        cases hall : ids.all (fun i => u.locations.contains i) with
        | true => simpa using (allContains_iff _ _).mp hall
        | false =>
          have hx : ∃ x ∈ ids, x ∉ u.locations := by
            by_contra hc
            push_neg at hc
            rw [(allContains_iff ids u.locations).mpr hc] at hall
            cases hall
          simp [hx] at h
  · intro req h
    rcases req with ⟨e, pw, fn', ln, ids⟩
    cases e <;> cases pw <;> cases fn' <;> cases ln <;>
      simp only [FranchiseAdminView.post, hauth, hSA, hFA, Bool.not_true, Bool.false_eq_true,
        Bool.false_or, if_false, if_true] at h ⊢
    all_goals first
      | (intro i hi; cases h)
      | skip
    case some.some.some.some e pw fn' ln =>
      cases ids with
      | none => simp
      | some l =>
        by_cases htr : truthyList (some l)
        · simp only [htr, if_true, hFA, Bool.true_and] at h
          cases hall : l.all (fun i => u.locations.contains i) with
          | true => simpa using (allContains_iff _ _).mp hall
          | false =>
            have hx : ∃ x ∈ l, x ∉ u.locations := by
              by_contra hc
              push_neg at hc
              rw [(allContains_iff l u.locations).mpr hc] at hall
              cases hall
            simp [hx] at h
        · have : l = [] := by
            simpa [truthyList, List.isEmpty_iff] using htr
          simp [this]

/-- Witness instantiating the amended C1 rules: the franchise admin assigned
location 1 deletes a staff member assigned locations 1 and 2, allowed through
the overlap at location 1. -/
theorem C1_amended_witness :
    (StaffView.delete Fixtures.adminU (some 20) Fixtures.baseStore).status
      = HStatus.noContent204 := by
  have h := C1_amended_franchiseAdmin_mutation_rules Fixtures.adminU Fixtures.staffT
    Fixtures.adminB Fixtures.baseStore 20 12 "X" (by decide) (by decide) (by decide)
    (by decide) (by decide) (by decide)
  exact h.2.1.mpr ⟨1, by decide, by decide⟩

theorem find?_and_of_find? {α : Type} (p q : α → Bool) (l : List α) (a : α)
    (h : l.find? p = some a) (hq : q a = true) :
    l.find? (fun x => p x && q x) = some a := by
  induction l with
  | nil => cases h
  | cons hd tl ih =>
    by_cases hp : p hd = true
    · rw [List.find?_cons_of_pos _ hp] at h
      injection h with h
      subst h
      exact List.find?_cons_of_pos _ (by simp [hp, hq])
    · rw [List.find?_cons_of_neg _ hp] at h
      rw [List.find?_cons_of_neg _ (by simp [hp])]
      exact ih h

theorem find?_and_eq_none {α : Type} (p q : α → Bool) (l : List α) (a : α)
    (huniq : ∀ b ∈ l, p b = true → b = a) (hq : q a = false) :
    l.find? (fun x => p x && q x) = none := by
  rw [List.find?_eq_none]
  intro x hx hand
  rcases Bool.and_eq_true_iff.mp hand with ⟨hp, hqx⟩
  rw [huniq x hx hp] at hqx
  rw [hq] at hqx
  cases hqx

/-- Scoped read of a single available menu item by a franchise admin or staff
member: allowed exactly when the item location is among the user locations. -/
theorem menuItemsGetSingle_scoped (u : User) (item : MenuItem) (s : Store) (iid : Nat)
    (hSA : u.isSuperAdmin = false)
    (hrole : u.isFranchiseAdmin = true ∨ u.isStaffMember = true)
    (hfind : s.menuItems.find? (fun m => m.id == iid && m.isAvailable) = some item) :
    (MenuItemsView.getSingle u iid s = HStatus.ok200 ↔ item.locationId ∈ u.locations) := by
  have hb : (u.isFranchiseAdmin || u.isStaffMember) = true := by
    rcases hrole with h | h <;> simp [h]
  simp only [MenuItemsView.getSingle, hfind, hSA, hb, Bool.false_eq_true, if_false, if_true]
  cases h : u.locations.contains item.locationId with
  | true =>
    have := (by simpa [List.contains, List.elem_iff] using h : item.locationId ∈ u.locations)
    simp [h, this]
  | false =>
    have hn : item.locationId ∉ u.locations := by
      intro hc
      rw [(by simpa [List.contains, List.elem_iff] using hc :
        u.locations.contains item.locationId = true)] at h
      cases h
    simp [h, hn]

/-- Scoped read of a single location by a franchise admin or staff member:
allowed exactly when the location is among the user locations. -/
theorem locationGetSingle_scoped (u : User) (loc : Location) (s : Store) (lid : Nat)
    (hSA : u.isSuperAdmin = false)
    (hrole : u.isFranchiseAdmin = true ∨ u.isStaffMember = true)
    (hfind : findLocation s lid = some loc) :
    (LocationView.getSingle u lid s = HStatus.ok200 ↔ loc.id ∈ u.locations) := by
  have hb : (u.isFranchiseAdmin || u.isStaffMember) = true := by
    rcases hrole with h | h <;> simp [h]
  simp only [LocationView.getSingle, hfind, hSA, hb, Bool.false_eq_true, Bool.false_or, hb,
    if_false, if_true, Bool.or_true, Bool.true_or]
  cases h : u.locations.contains loc.id with
  | true =>
    have := (by simpa [List.contains, List.elem_iff] using h : loc.id ∈ u.locations)
    simp [h, this]
  | false =>
    have hn : loc.id ∉ u.locations := by
      intro hc
      rw [(by simpa [List.contains, List.elem_iff] using hc :
        u.locations.contains loc.id = true)] at h
      cases h
    simp [h, hn]

/-- Category-list membership for a franchise admin or staff member: a category
is listed exactly when it is stored and its location is among the user
locations. -/
theorem categoryGet_mem (u : User) (c : Category) (s : Store)
    (hSA : u.isSuperAdmin = false)
    (hrole : u.isFranchiseAdmin = true ∨ u.isStaffMember = true) :
    (c ∈ (CategoryView.get u s).categories ↔ c ∈ s.categories ∧ c.locationId ∈ u.locations) := by
  have hb : (u.isFranchiseAdmin || u.isStaffMember) = true := by
    rcases hrole with h | h <;> simp [h]
  simp only [CategoryView.get, hSA, hb, Bool.false_eq_true, if_false, if_true]
  rw [mem_sortByLe]
  simp [List.mem_filter, List.contains, List.elem_iff]

/-- Scoped read of a single order by a franchise admin or staff member with a
well-formed store: allowed exactly when the order location is among the user
locations. -/
theorem orderGetSingle_scoped (u : User) (o : Order) (loc : Location) (s : Store) (oid : Nat)
    (hauth : u.isAuthenticated = true)
    (hSA : u.isSuperAdmin = false)
    (hrole : u.isFranchiseAdmin = true ∨ u.isStaffMember = true)
    (hfind : findOrder s oid = some o)
    (huniq : ∀ o' ∈ s.orders, (o'.id == oid) = true → o' = o)
    (hloc : findLocation s o.locationId = some loc)
    (hproc : o.processedBy = none) :
    (OrderHistoryView.getSingle u oid s = HStatus.ok200 ↔ o.locationId ∈ u.locations) := by
  have hb : (u.isFranchiseAdmin || u.isStaffMember) = true := by
    rcases hrole with h | h <;> simp [h]
  have hfind' : s.orders.find? (fun x => x.id == oid) = some o := by
    simpa [findOrder] using hfind
  simp only [OrderHistoryView.getSingle, hauth, hSA, hb, Bool.not_true, Bool.false_eq_true,
    if_false, if_true]
  cases h : u.locations.contains o.locationId with
  | true =>
    have hmem := (by simpa [List.contains, List.elem_iff] using h : o.locationId ∈ u.locations)
    have hf := find?_and_of_find? (fun x => x.id == oid)
      (fun x => u.locations.contains x.locationId) s.orders o hfind' h
    simp only [List.contains, List.elem_eq_mem] at hf
    simp [hf, hloc, hproc, hmem]
  | false =>
    have hn : o.locationId ∉ u.locations := by
      intro hc
      rw [(by simpa [List.contains, List.elem_iff] using hc :
        u.locations.contains o.locationId = true)] at h
      cases h
    have hf := find?_and_eq_none (fun x => x.id == oid)
      (fun x => u.locations.contains x.locationId) s.orders o huniq h
    simp only [List.contains, List.elem_eq_mem] at hf
    simp [hf, hn]

/-- Menu-item creation is refused outright for every requester that is neither
super admin nor franchise admin. -/
theorem menuPost_denied (u : User) (req : MenuItemsView.PostReq) (s : Store)
    (hSA : u.isSuperAdmin = false) (hFA : u.isFranchiseAdmin = false) :
    MenuItemsView.post u req s = ⟨HStatus.forbidden403, s⟩ := by
  simp [MenuItemsView.post, hSA, hFA]

/-- Menu-item update is refused outright for every requester that is neither
super admin nor franchise admin. -/
theorem menuPut_denied (u : User) (req : MenuItemsView.PutReq) (s : Store)
    (hSA : u.isSuperAdmin = false) (hFA : u.isFranchiseAdmin = false) :
    MenuItemsView.put u req s = ⟨HStatus.forbidden403, s⟩ := by
  simp [MenuItemsView.put, hSA, hFA]

/-- Menu-item delete is refused outright for every requester that is neither
super admin nor franchise admin. -/
theorem menuDelete_denied (u : User) (reqId : Option Nat) (s : Store)
    (hSA : u.isSuperAdmin = false) (hFA : u.isFranchiseAdmin = false) :
    MenuItemsView.delete u reqId s = ⟨HStatus.forbidden403, s⟩ := by
  simp [MenuItemsView.delete, hSA, hFA]

/-- Location creation is refused outright for every non-super-admin. -/
theorem locationPost_denied (u : User) (req : LocationView.PostReq) (s : Store)
    (hSA : u.isSuperAdmin = false) :
    LocationView.post u req s = ⟨HStatus.forbidden403, s⟩ := by
  simp [LocationView.post, hSA]

/-- Location delete is refused outright for every non-super-admin. -/
theorem locationDelete_denied (u : User) (qid : Option Nat) (s : Store)
    (hSA : u.isSuperAdmin = false) :
    LocationView.delete u qid s = ⟨HStatus.forbidden403, s⟩ := by
  simp [LocationView.delete, hSA]

/-- Location update is refused outright for every requester that is neither
super admin nor franchise admin. -/
theorem locationPatch_denied (u : User) (req : LocationView.PatchReq) (s : Store)
    (hSA : u.isSuperAdmin = false) (hFA : u.isFranchiseAdmin = false) :
    LocationView.patch u req s = ⟨HStatus.forbidden403, s⟩ := by
  simp [LocationView.patch, hSA, hFA]

/-- Staff update is refused outright for every staff requester. -/
theorem staffPatch_staffDenied (u : User) (req : FranchiseAdminView.PatchReq) (s : Store)
    (hSt : u.isStaffMember = true) :
    StaffView.patch u req s = ⟨HStatus.forbidden403, s⟩ := by
  simp [StaffView.patch, hSt]

/-- Admin update is refused outright for every authenticated staff requester. -/
theorem faPatch_staffDenied (u : User) (req : FranchiseAdminView.PatchReq) (s : Store)
    (hauth : u.isAuthenticated = true) (hSt : u.isStaffMember = true) :
    FranchiseAdminView.patch u req s = ⟨HStatus.forbidden403, s⟩ := by
  simp [FranchiseAdminView.patch, hauth, hSt]

/-- Admin delete is refused outright for every authenticated staff requester. -/
theorem faDelete_staffDenied (u : User) (qid : Option Nat) (s : Store)
    (hauth : u.isAuthenticated = true) (hSt : u.isStaffMember = true) :
    FranchiseAdminView.delete u qid s = ⟨HStatus.forbidden403, s⟩ := by
  simp [FranchiseAdminView.delete, hauth, hSt]

/-- Admin creation is refused outright for every authenticated requester that is
neither super admin nor franchise admin. -/
theorem faPost_denied (u : User) (req : FranchiseAdminView.PostReq) (s : Store)
    (hauth : u.isAuthenticated = true)
    (hSA : u.isSuperAdmin = false) (hFA : u.isFranchiseAdmin = false) :
    FranchiseAdminView.post u req s = ⟨HStatus.forbidden403, s⟩ := by
  simp [FranchiseAdminView.post, hauth, hSA, hFA]

/-- Staff creation by a requester that is neither super admin nor franchise
admin never succeeds and never changes the store. -/
theorem staffPost_denied (u : User) (req : StaffView.PostReq) (s : Store)
    (hSA : u.isSuperAdmin = false) (hFA : u.isFranchiseAdmin = false) :
    (StaffView.post u req s).store = s ∧ (StaffView.post u req s).status.isError = true := by
  rcases req with ⟨e, pw, fn, ln, ids⟩
  cases e <;> cases pw <;> cases fn <;> cases ln <;> cases ids <;>
    simp only [StaffView.post, hSA, hFA, Bool.false_eq_true, if_false] <;>
    (repeat' split) <;> exact ⟨by trivial, by trivial⟩

/-- Staff delete by a requester that is neither super admin nor franchise admin
never succeeds and never changes the store. -/
theorem staffDelete_denied (u : User) (qid : Option Nat) (s : Store)
    (hSA : u.isSuperAdmin = false) (hFA : u.isFranchiseAdmin = false) :
    (StaffView.delete u qid s).store = s
      ∧ (StaffView.delete u qid s).status.isError = true := by
  cases qid with
  | none => exact ⟨rfl, rfl⟩
  | some tid =>
    simp only [StaffView.delete, hSA, hFA, Bool.false_eq_true, if_false]
    cases findStaff s tid <;> simp [HStatus.isError]

/-- Category creation by a requester that is neither super admin nor franchise
admin never succeeds and never changes the store. -/
theorem categoryPost_denied (u : User) (req : CategoryView.PostReq) (s : Store)
    (hSA : u.isSuperAdmin = false) (hFA : u.isFranchiseAdmin = false) :
    (CategoryView.post u req s).store = s
      ∧ (CategoryView.post u req s).status.isError = true := by
  simp only [CategoryView.post, hSA, hFA, Bool.false_eq_true, if_false]
  repeat' split
  all_goals exact ⟨by trivial, by trivial⟩

/-- Category update by a requester that is neither super admin nor franchise
admin never succeeds and never changes the store. -/
theorem categoryPut_denied (u : User) (req : CategoryView.PutReq) (s : Store)
    (hSA : u.isSuperAdmin = false) (hFA : u.isFranchiseAdmin = false) :
    (CategoryView.put u req s).store = s
      ∧ (CategoryView.put u req s).status.isError = true := by
  simp only [CategoryView.put, hSA, hFA, Bool.false_eq_true, if_false]
  repeat' split
  all_goals exact ⟨by trivial, by trivial⟩

/-- Category delete by a requester that is neither super admin nor franchise
admin never succeeds and never changes the store. -/
theorem categoryDelete_denied (u : User) (reqId : Option Nat) (s : Store)
    (hSA : u.isSuperAdmin = false) (hFA : u.isFranchiseAdmin = false) :
    (CategoryView.delete u reqId s).store = s
      ∧ (CategoryView.delete u reqId s).status.isError = true := by
  simp only [CategoryView.delete, hSA, hFA, Bool.false_eq_true, if_false]
  repeat' split
  all_goals exact ⟨by trivial, by trivial⟩

/-- C2: a staff principal reads a location-scoped resource (available menu
item, category listing, location, order) exactly when the resource location is
among the staff member assigned locations, and every create, update or delete
of menu items, categories, locations, staff accounts or admin accounts by a
staff principal is refused with an error status and leaves the store
unchanged. -/
theorem C2_staff_read_scope_and_no_mutation
    (u : User) (s : Store)
    (hauth : u.isAuthenticated = true)
    (hSt : u.isStaffMember = true)
    (hSA : u.isSuperAdmin = false)
    (hFA : u.isFranchiseAdmin = false) :
    (∀ (iid : Nat) (item : MenuItem),
      s.menuItems.find? (fun m => m.id == iid && m.isAvailable) = some item →
      (MenuItemsView.getSingle u iid s = HStatus.ok200 ↔ item.locationId ∈ u.locations))
    ∧ (∀ c : Category,
      c ∈ (CategoryView.get u s).categories ↔ c ∈ s.categories ∧ c.locationId ∈ u.locations)
    ∧ (∀ (lid : Nat) (loc : Location), findLocation s lid = some loc →
      (LocationView.getSingle u lid s = HStatus.ok200 ↔ loc.id ∈ u.locations))
    ∧ (∀ (oid : Nat) (o : Order) (loc : Location),
      findOrder s oid = some o →
      (∀ o' ∈ s.orders, (o'.id == oid) = true → o' = o) →
      findLocation s o.locationId = some loc →
      o.processedBy = none →
      (OrderHistoryView.getSingle u oid s = HStatus.ok200 ↔ o.locationId ∈ u.locations))
    ∧ (∀ req, MenuItemsView.post u req s = ⟨HStatus.forbidden403, s⟩)
    ∧ (∀ req, MenuItemsView.put u req s = ⟨HStatus.forbidden403, s⟩)
    ∧ (∀ rid, MenuItemsView.delete u rid s = ⟨HStatus.forbidden403, s⟩)
    ∧ (∀ req, (CategoryView.post u req s).store = s
        ∧ (CategoryView.post u req s).status.isError = true)
    ∧ (∀ req, (CategoryView.put u req s).store = s
        ∧ (CategoryView.put u req s).status.isError = true)
    ∧ (∀ rid, (CategoryView.delete u rid s).store = s
        ∧ (CategoryView.delete u rid s).status.isError = true)
    ∧ (∀ req, LocationView.post u req s = ⟨HStatus.forbidden403, s⟩)
    ∧ (∀ req, LocationView.patch u req s = ⟨HStatus.forbidden403, s⟩)
    ∧ (∀ qid, LocationView.delete u qid s = ⟨HStatus.forbidden403, s⟩)
    ∧ (∀ req, (StaffView.post u req s).store = s
        ∧ (StaffView.post u req s).status.isError = true)
    ∧ (∀ req, StaffView.patch u req s = ⟨HStatus.forbidden403, s⟩)
    ∧ (∀ qid, (StaffView.delete u qid s).store = s
        ∧ (StaffView.delete u qid s).status.isError = true)
    ∧ (∀ req, FranchiseAdminView.post u req s = ⟨HStatus.forbidden403, s⟩)
    ∧ (∀ req, FranchiseAdminView.patch u req s = ⟨HStatus.forbidden403, s⟩)
    ∧ (∀ qid, FranchiseAdminView.delete u qid s = ⟨HStatus.forbidden403, s⟩) := by
  refine ⟨fun iid item hf => menuItemsGetSingle_scoped u item s iid hSA (Or.inr hSt) hf,
    fun c => categoryGet_mem u c s hSA (Or.inr hSt),
    fun lid loc hf => locationGetSingle_scoped u loc s lid hSA (Or.inr hSt) hf,
    fun oid o loc hf huniq hloc hproc =>
      orderGetSingle_scoped u o loc s oid hauth hSA (Or.inr hSt) hf huniq hloc hproc,
    fun req => menuPost_denied u req s hSA hFA,
    fun req => menuPut_denied u req s hSA hFA,
    fun rid => menuDelete_denied u rid s hSA hFA,
    fun req => categoryPost_denied u req s hSA hFA,
    fun req => categoryPut_denied u req s hSA hFA,
    fun rid => categoryDelete_denied u rid s hSA hFA,
    fun req => locationPost_denied u req s hSA,
    fun req => locationPatch_denied u req s hSA hFA,
    fun qid => locationDelete_denied u qid s hSA,
    fun req => staffPost_denied u req s hSA hFA,
    fun req => staffPatch_staffDenied u req s hSt,
    fun qid => staffDelete_denied u qid s hSA hFA,
    fun req => faPost_denied u req s hauth hSA hFA,
    fun req => faPatch_staffDenied u req s hauth hSt,
    fun qid => faDelete_staffDenied u qid s hauth hSt⟩

/-- Witness instantiating C2: the staff member assigned locations 1 and 2 reads
the available menu item at location 1 successfully. -/
theorem C2_witness :
    MenuItemsView.getSingle Fixtures.staffT 4 Fixtures.baseStore = HStatus.ok200 := by
  have h := C2_staff_read_scope_and_no_mutation Fixtures.staffT Fixtures.baseStore
    (by decide) (by decide) (by decide) (by decide)
  exact (h.1 4 Fixtures.itemA (by decide)).mpr (by decide)

theorem existingLocations_length (s : Store) (ids : List Nat)
    (hnodup : ids.Nodup) (hlocNodup : (s.locations.map (fun l => l.id)).Nodup)
    (hexist : ∀ i ∈ ids, ∃ l ∈ s.locations, l.id = i) :
    (existingLocations s ids).length = ids.length := by
  have hsub : List.Sublist ((existingLocations s ids).map (fun l => l.id))
      (s.locations.map (fun l => l.id)) :=
    (List.filter_sublist _).map _
  have hnd : ((existingLocations s ids).map (fun l => l.id)).Nodup := hsub.nodup hlocNodup
  have hmem : ∀ x, x ∈ (existingLocations s ids).map (fun l => l.id) ↔ x ∈ ids := by
    intro x
    simp only [existingLocations, List.mem_map, List.mem_filter]
    constructor
    · rintro ⟨l, ⟨hl, hc⟩, rfl⟩
      simpa [List.contains, List.elem_iff] using hc
    · intro hx
      rcases hexist x hx with ⟨l, hl, rfl⟩
      exact ⟨l, ⟨hl, by simpa [List.contains, List.elem_iff] using hx⟩, rfl⟩
  have hperm : List.Perm ((existingLocations s ids).map (fun l => l.id)) ids := by
    apply List.perm_of_nodup_nodup_toFinset_eq hnd hnodup
    ext x
    simp only [List.mem_toFinset, hmem]
  calc (existingLocations s ids).length
      = ((existingLocations s ids).map (fun l => l.id)).length := (List.length_map _ _).symm
    _ = ids.length := hperm.length_eq

theorem filter_fresh_append_eq {s : Store} {v : User}
    (hfresh : ∀ w ∈ s.users, w.id ≠ s.nextId) (hv : v.id = s.nextId) :
    (s.users ++ [v]).filter (fun w => w.id != v.id) = s.users := by
  rw [List.filter_append]
  have h1 : s.users.filter (fun w => w.id != v.id) = s.users := by
    apply List.filter_eq_self.mpr
    intro w hw
    simpa [hv] using hfresh w hw
  have h2 : [v].filter (fun w => w.id != v.id) = [] := by
    simp [List.filter]
  rw [h1, h2, List.append_nil]

/-- C3: a franchise admin creating a staff or admin account with a well-formed
payload referencing location set `ids` succeeds exactly when every referenced
location is among its own; one location outside the actor scope rejects the
whole request with a scope error, leaving the user table unchanged (the
compensating delete of the admin-create path removes the provisional row). -/
theorem C3_franchiseAdmin_create_subset_scope
    (u : User) (s : Store) (e pw fn ln : String) (ids : List Nat)
    (hauth : u.isAuthenticated = true)
    (hFA : u.isFranchiseAdmin = true)
    (hSA : u.isSuperAdmin = false)
    (hids : ids ≠ [])
    (hnodup : ids.Nodup)
    (hlocNodup : (s.locations.map (fun l => l.id)).Nodup)
    (hexist : ∀ i ∈ ids, ∃ l ∈ s.locations, l.id = i)
    (hfresh : ∀ w ∈ s.users, w.id ≠ s.nextId) :
    ((StaffView.post u ⟨some e, some pw, some fn, some ln, some ids⟩ s).status
        = HStatus.created201 ↔ ∀ i ∈ ids, i ∈ u.locations)
    ∧ (¬ (∀ i ∈ ids, i ∈ u.locations) →
        StaffView.post u ⟨some e, some pw, some fn, some ln, some ids⟩ s
          = ⟨HStatus.forbidden403, s⟩)
    ∧ ((FranchiseAdminView.post u ⟨some e, some pw, some fn, some ln, some ids⟩ s).status
        = HStatus.created201 ↔ ∀ i ∈ ids, i ∈ u.locations)
    ∧ (¬ (∀ i ∈ ids, i ∈ u.locations) →
        (FranchiseAdminView.post u ⟨some e, some pw, some fn, some ln, some ids⟩ s).status
          = HStatus.forbidden403
        ∧ (FranchiseAdminView.post u ⟨some e, some pw, some fn, some ln, some ids⟩ s).store.users
          = s.users) := by
  have hemp : ids.isEmpty = false := by
    cases ids with
    | nil => exact absurd rfl hids
    | cons a l => rfl
  have hlen : (existingLocations s ids).length = ids.length :=
    existingLocations_length s ids hnodup hlocNodup hexist
  refine ⟨?_, ?_, ?_, ?_⟩
  · constructor
    · intro h
      by_contra hsub
      have hx : ∃ x ∈ ids, x ∉ u.locations := by push_neg at hsub; exact hsub
      simp [StaffView.post, hemp, hSA, hFA, hx] at h
    · intro hsub
      have hno : ¬ ∃ x ∈ ids, x ∉ u.locations := by push_neg; exact hsub
      simp [StaffView.post, hemp, hSA, hFA, hno]
  · intro hn
    have hx : ∃ x ∈ ids, x ∉ u.locations := by push_neg at hn; exact hn
    simp [StaffView.post, hemp, hSA, hFA, hx]
  · constructor
    · intro h
      by_contra hsub
      have hx : ∃ x ∈ ids, x ∉ u.locations := by push_neg at hsub; exact hsub
      simp [FranchiseAdminView.post, hauth, hSA, hFA, truthyList, hemp, hx] at h
    · intro hsub
      have hno : ¬ ∃ x ∈ ids, x ∉ u.locations := by push_neg; exact hsub
      simp [FranchiseAdminView.post, hauth, hSA, hFA, truthyList, hemp, hno, hlen]
  · intro hn
    have hx : ∃ x ∈ ids, x ∉ u.locations := by push_neg at hn; exact hn
    constructor
    · simp [FranchiseAdminView.post, hauth, hSA, hFA, truthyList, hemp, hx]
    · simp only [FranchiseAdminView.post, hauth, hSA, hFA, Bool.not_true, Bool.false_eq_true,
        Bool.false_or, if_false, if_true]
      simp [truthyList, hemp, hx, Store.delUser, Store.addUser]
      exact hfresh

/-- Witness instantiating C3: the franchise admin assigned location 1 creates a
staff member for location 1, within scope, successfully. -/
theorem C3_witness :
    (StaffView.post Fixtures.adminU
      ⟨some "n@pos", some "pw", some "N", some "P", some [1]⟩ Fixtures.baseStore).status
      = HStatus.created201 := by
  have h := C3_franchiseAdmin_create_subset_scope Fixtures.adminU Fixtures.baseStore
    "n@pos" "pw" "N" "P" [1] (by decide) (by decide) (by decide) (by decide) (by decide)
    (by decide) (by decide) (by decide)
  exact h.1.mpr (by decide)

namespace Fixtures

/-- Update request moving menu item 4 to location 2 without supplying a
category id. -/
def locOnlyPut : MenuItemsView.PutReq := ⟨some 4, none, none, none, some 2⟩

end Fixtures

/-- C4: the referential invariant is bypassed on updates that supply only
`location_id`. Moving menu item 4 (category 3, located at location 1) to
location 2 succeeds with 200, after which the stored item sits at location 2
while its category 3 still belongs to location 1 — the claimed IntegrityError
never happens and the invariant category.locationId = menuItem.locationId is
broken by a successful update. -/
theorem C4_referential_check_bypassed :
    (MenuItemsView.put Fixtures.superU Fixtures.locOnlyPut Fixtures.baseStore).status
        = HStatus.ok200
    ∧ findMenuItem (MenuItemsView.put Fixtures.superU Fixtures.locOnlyPut
        Fixtures.baseStore).store 4
      = some { id := 4, name := "cola", price := 250, categoryId := 3, locationId := 2,
               isAvailable := true }
    ∧ findCategory (MenuItemsView.put Fixtures.superU Fixtures.locOnlyPut
        Fixtures.baseStore).store 3
      = some { id := 3, name := "drinks", locationId := 1, displayOrder := 0 } := by
  refine ⟨by decide, by decide, by decide⟩

/-- Menu-item updates never touch the order tables: later menu price changes
leave every stored order and order item unchanged. -/
theorem menuPut_preserves_orders (u : User) (req : MenuItemsView.PutReq) (s : Store) :
    (MenuItemsView.put u req s).store.orders = s.orders
    ∧ (MenuItemsView.put u req s).store.orderItems = s.orderItems := by
  simp only [MenuItemsView.put, Store.setMenuItem]
  repeat' split
  all_goals exact ⟨by trivial, by trivial⟩

theorem resolveItems_snapshot (s : Store) :
    ∀ (items : List OrderView.ItemReq) (rs : List OrderView.Resolved),
    OrderView.resolveItems s items = some rs →
    ∀ r ∈ rs, ∃ mi, findMenuItem s r.menuItemId = some mi ∧ r.price = mi.price := by
  intro items
  induction items with
  | nil =>
    intro rs h r hr
    simp only [OrderView.resolveItems] at h
    cases h
    cases hr
  | cons it rest ih =>
    intro rs h r hr
    simp only [OrderView.resolveItems] at h
    cases hb : it.menuItemId with
    | none => rw [hb] at h; simp at h
    | some itId =>
      rw [hb] at h
      simp only [Option.some_bind] at h
      cases hf : findMenuItem s itId with
      | none => rw [hf] at h; simp at h
      | some mi =>
        rw [hf] at h
        cases hrest : OrderView.resolveItems s rest with
        | none => rw [hrest] at h; simp at h
        | some rs' =>
          rw [hrest] at h
          simp only [Option.map_some'] at h
          injection h with h
          subst h
          rcases List.mem_cons.mp hr with hr0 | hr'
          · subst hr0
            refine ⟨mi, ?_, rfl⟩
            have hid : mi.id = itId := by
              have hp := List.find?_some hf
              simpa using hp
            simp only [findMenuItem] at hf ⊢
            rw [hid]
            exact hf
          · exact ih rs' hrest r hr'

theorem mkOrderItems_map_price (oid : Nat) (rs : List OrderView.Resolved) :
    ∀ base, (OrderView.mkOrderItems oid base rs).map (fun oi => oi.price * (oi.quantity : Int))
      = rs.map (fun r => r.price * (r.quantity : Int)) := by
  induction rs with
  | nil => intro base; rfl
  | cons r rest ih =>
    intro base
    simp only [OrderView.mkOrderItems, List.map_cons, ih (base + 1)]

theorem mkOrderItems_orderId (oid : Nat) (rs : List OrderView.Resolved) :
    ∀ base, ∀ oi ∈ OrderView.mkOrderItems oid base rs, oi.orderId = oid := by
  induction rs with
  | nil => intro base oi h; cases h
  | cons r rest ih =>
    intro base oi h
    rcases List.mem_cons.mp h with h0 | h'
    · subst h0; rfl
    · exact ih (base + 1) oi h'

theorem mkOrderItems_mem_resolved (oid : Nat) (rs : List OrderView.Resolved) :
    ∀ base, ∀ oi ∈ OrderView.mkOrderItems oid base rs,
      ∃ r ∈ rs, oi.menuItemId = r.menuItemId ∧ oi.price = r.price ∧ oi.quantity = r.quantity := by
  induction rs with
  | nil => intro base oi h; cases h
  | cons r rest ih =>
    intro base oi h
    rcases List.mem_cons.mp h with h0 | h'
    · subst h0; exact ⟨r, List.mem_cons_self _ _, rfl, rfl, rfl⟩
    · rcases ih (base + 1) oi h' with ⟨r', hr', hx⟩
      exact ⟨r', List.mem_cons_of_mem _ hr', hx⟩

theorem filter_orderId_new (old newItems : List OrderItem) (oid : Nat)
    (hfresh : ∀ oi ∈ old, oi.orderId ≠ oid)
    (hnew : ∀ oi ∈ newItems, oi.orderId = oid) :
    (old ++ newItems).filter (fun oi => oi.orderId == oid) = newItems := by
  rw [List.filter_append]
  have h1 : old.filter (fun oi => oi.orderId == oid) = [] := by
    rw [List.filter_eq_nil_iff]
    intro a ha
    simpa using hfresh a ha
  have h2 : newItems.filter (fun oi => oi.orderId == oid) = newItems :=
    List.filter_eq_self.mpr (fun a ha => by simpa using hnew a ha)
  rw [h1, h2, List.nil_append]

/-- C5: for every successfully created order, the stored total equals the sum
of stored item price times quantity over its order items, each stored item
price is the menu price at creation time, any client-supplied total is ignored
(the handler result does not depend on it), and a later menu-item update
leaves all stored orders and order items unchanged. -/
theorem C5_order_total_snapshot
    (req : OrderView.PostReq) (s : Store)
    (hfresh : ∀ oi ∈ s.orderItems, oi.orderId ≠ s.nextId)
    (hsucc : (OrderView.post req s).status = HStatus.created201) :
    (∃ o ∈ (OrderView.post req s).store.orders, o.id = s.nextId
      ∧ o.totalAmount
          = (((OrderView.post req s).store.orderItems.filter
              (fun oi => oi.orderId == s.nextId)).map
                (fun oi => oi.price * (oi.quantity : Int))).sum
      ∧ ∀ oi ∈ (OrderView.post req s).store.orderItems.filter
          (fun oi => oi.orderId == s.nextId),
          ∃ mi, findMenuItem s oi.menuItemId = some mi ∧ oi.price = mi.price)
    ∧ (∀ t, OrderView.post { req with clientTotal := t } s = OrderView.post req s)
    ∧ (∀ (u : User) (preq : MenuItemsView.PutReq),
        (MenuItemsView.put u preq (OrderView.post req s).store).store.orders
          = (OrderView.post req s).store.orders
        ∧ (MenuItemsView.put u preq (OrderView.post req s).store).store.orderItems
          = (OrderView.post req s).store.orderItems) := by
  refine ⟨?_, ?_, ?_⟩
  · cases hloc : req.locationId.bind (findLocation s) with
    | none => simp [OrderView.post, hloc] at hsucc
    | some location =>
      by_cases hemp : req.items.isEmpty
      · simp [OrderView.post, hloc, hemp] at hsucc
      · cases hres : OrderView.resolveItems s req.items with
        | none => simp [OrderView.post, hloc, hemp, hres] at hsucc
        | some rs =>
          have hpost : OrderView.post req s =
              ⟨HStatus.created201,
                { s with
                  orders := s.orders ++
                    [{ id := s.nextId, locationId := location.id
                       orderNumber := "ORD-" ++ toString location.id
                       orderDate := s.nextId
                       totalAmount := (rs.map (fun r => r.price * (r.quantity : Int))).sum
                       processedBy := none }]
                  orderItems := s.orderItems ++ OrderView.mkOrderItems s.nextId (s.nextId + 1) rs
                  nextId := s.nextId + 1 + rs.length }⟩ := by
            simp [OrderView.post, hloc, hemp, hres]
          rw [hpost]
          have hfilter : (s.orderItems ++ OrderView.mkOrderItems s.nextId (s.nextId + 1) rs).filter
              (fun oi => oi.orderId == s.nextId)
              = OrderView.mkOrderItems s.nextId (s.nextId + 1) rs :=
            filter_orderId_new s.orderItems _ s.nextId hfresh
              (mkOrderItems_orderId s.nextId rs (s.nextId + 1))
          refine ⟨_, List.mem_append_right _ (List.mem_singleton_self _), rfl, ?_, ?_⟩
          · simp only [hfilter, mkOrderItems_map_price]
          · simp only [hfilter]
            intro oi hoi
            rcases mkOrderItems_mem_resolved s.nextId rs (s.nextId + 1) oi hoi with
              ⟨r, hr, hmid, hpr, hq⟩
            rcases resolveItems_snapshot s req.items rs hres r hr with ⟨mi, hmi, hprice⟩
            exact ⟨mi, by rw [hmid]; exact hmi, by rw [hpr]; exact hprice⟩
  · intro t
    rcases req with ⟨lid, its, t0⟩
    rfl
  · intro u preq
    exact menuPut_preserves_orders u preq (OrderView.post req s).store

namespace Fixtures

/-- Create-order request for three units of menu item 4 at location 1, with a
client-supplied total of 999 that the handler must ignore. -/
def orderReqA : OrderView.PostReq := ⟨some 1, [⟨some 4, some 3⟩], some 999⟩

end Fixtures

/-- Witness instantiating C5 on the concrete store: the created order stores
the server-side total (3 times the menu price of item 4) with snapshot
prices. -/
theorem C5_witness :
    ∃ o ∈ (OrderView.post Fixtures.orderReqA Fixtures.baseStore).store.orders,
      o.id = Fixtures.baseStore.nextId
      ∧ o.totalAmount
          = (((OrderView.post Fixtures.orderReqA Fixtures.baseStore).store.orderItems.filter
              (fun oi => oi.orderId == Fixtures.baseStore.nextId)).map
                (fun oi => oi.price * (oi.quantity : Int))).sum
      ∧ ∀ oi ∈ (OrderView.post Fixtures.orderReqA Fixtures.baseStore).store.orderItems.filter
          (fun oi => oi.orderId == Fixtures.baseStore.nextId),
          ∃ mi, findMenuItem Fixtures.baseStore oi.menuItemId = some mi
            ∧ oi.price = mi.price :=
  (C5_order_total_snapshot Fixtures.orderReqA Fixtures.baseStore
    (by decide) (by decide)).1

theorem find?_eq_some_of_unique {α : Type} (p : α → Bool) (l : List α) (a : α)
    (ha : a ∈ l) (hpa : p a = true) (huniq : ∀ b ∈ l, p b = true → b = a) :
    l.find? p = some a := by
  induction l with
  | nil => cases ha
  | cons hd tl ih =>
    by_cases hp : p hd = true
    · rw [List.find?_cons_of_pos _ hp]
      rw [huniq hd (List.mem_cons_self _ _) hp]
    · rw [List.find?_cons_of_neg _ hp]
      rcases List.mem_cons.mp ha with rfl | ha'
      · exact absurd hpa hp
      · exact ih ha' (fun b hb h => huniq b (List.mem_cons_of_mem _ hb) h)

/-- C6: with the spec role model (exactly one role per principal), an order
appears in the filterless history list exactly when the single-order read of
its id returns 200, and for every non-super-admin principal both are possible
only when the order location is among the principal locations: the list rule
is never looser than the single-item rule. -/
theorem C6_list_matches_single (u : User) (s : Store) (o : Order) (loc : Location)
    (hauth : u.isAuthenticated = true)
    (hrole : (u.isSuperAdmin = true ∧ u.isFranchiseAdmin = false ∧ u.isStaffMember = false)
      ∨ (u.isSuperAdmin = false ∧ u.isFranchiseAdmin = true ∧ u.isStaffMember = false)
      ∨ (u.isSuperAdmin = false ∧ u.isFranchiseAdmin = false ∧ u.isStaffMember = true))
    (ho : o ∈ s.orders)
    (huniq : ∀ o' ∈ s.orders, o'.id = o.id → o' = o)
    (hloc : findLocation s o.locationId = some loc)
    (hproc : o.processedBy = none) :
    (o ∈ (OrderHistoryView.getList u s).orders
      ↔ OrderHistoryView.getSingle u o.id s = HStatus.ok200)
    ∧ (u.isSuperAdmin = false →
        (o ∈ (OrderHistoryView.getList u s).orders → o.locationId ∈ u.locations)
        ∧ (OrderHistoryView.getSingle u o.id s = HStatus.ok200 →
            o.locationId ∈ u.locations)) := by
  have hfo : findOrder s o.id = some o := by
    simp only [findOrder]
    exact find?_eq_some_of_unique _ s.orders o ho (by simp)
      (fun b hb h => huniq b hb (by simpa using h))
  rcases hrole with ⟨hSA, hFA, hSt⟩ | hkind
  · have hsingle : OrderHistoryView.getSingle u o.id s = HStatus.ok200 := by
      simp [OrderHistoryView.getSingle, hauth, hSA, hfo, hloc, hproc]
    have hlist : o ∈ (OrderHistoryView.getList u s).orders := by
      simp only [OrderHistoryView.getList, hauth, hSA, Bool.not_true, Bool.false_eq_true,
        if_false, if_true]
      rw [mem_sortByLe]
      exact ho
    refine ⟨by simp [hsingle, hlist], fun hSA' => ?_⟩
    rw [hSA'] at hSA
    cases hSA
  · have hSA : u.isSuperAdmin = false := by
      rcases hkind with ⟨h, _, _⟩ | ⟨h, _, _⟩ <;> exact h
    have hor : u.isFranchiseAdmin = true ∨ u.isStaffMember = true := by
      rcases hkind with ⟨_, h, _⟩ | ⟨_, _, h⟩
      · exact Or.inl h
      · exact Or.inr h
    have hb : (u.isFranchiseAdmin || u.isStaffMember) = true := by
      rcases hor with h | h <;> simp [h]
    have hsingle := orderGetSingle_scoped u o loc s o.id hauth hSA hor hfo
      (fun o' h hb' => huniq o' h (by simpa using hb')) hloc hproc
    have hlist : o ∈ (OrderHistoryView.getList u s).orders ↔ o.locationId ∈ u.locations := by
      simp only [OrderHistoryView.getList, hauth, hSA, hb, Bool.not_true, Bool.false_eq_true,
        if_false, if_true]
      rw [mem_sortByLe]
      simp [List.mem_filter, List.contains, List.elem_iff, ho]
    exact ⟨hlist.trans hsingle.symm,
      fun _ => ⟨fun h => hlist.mp h, fun h => hsingle.mp h⟩⟩

namespace Fixtures

/-- A stored order at location 1. -/
def ordA : Order := ⟨30, 1, "ORD-1", 30, 750, none⟩

/-- The concrete store extended with one stored order. -/
def orderStore : Store := { baseStore with orders := [ordA] }

end Fixtures

/-- Witness instantiating C6: for the staff member assigned locations 1 and 2,
the stored order at location 1 appearing in the history list implies the
single read of it returns 200. -/
theorem C6_witness :
    OrderHistoryView.getSingle Fixtures.staffT Fixtures.ordA.id Fixtures.orderStore
      = HStatus.ok200 := by
  have h := C6_list_matches_single Fixtures.staffT Fixtures.orderStore Fixtures.ordA
    Fixtures.locA (by decide)
    (Or.inr (Or.inr ⟨by decide, by decide, by decide⟩))
    (by decide) (by decide) (by decide) (by decide)
  exact h.1.mp (by decide)

/-- C7 counterexample: the claim says every Location write by a non-super-admin
is denied and leaves the store unchanged, but a franchise admin assigned
location 1 successfully renames location 1 through PATCH. -/
theorem C7_counterexample :
    (LocationView.patch Fixtures.adminU ⟨some 1, some "Renamed", none, none, none, none⟩
      Fixtures.baseStore).status = HStatus.ok200
    ∧ (LocationView.patch Fixtures.adminU ⟨some 1, some "Renamed", none, none, none, none⟩
        Fixtures.baseStore).store ≠ Fixtures.baseStore
    ∧ Fixtures.adminU.isSuperAdmin = false := by
  refine ⟨by decide, by decide, by decide⟩

/-- C7 amended: Location create and delete are super-admin-only and every
non-super-admin attempt is refused unchanged; Location update is additionally
allowed for a franchise admin exactly on its assigned locations, while
principals that are neither super admin nor franchise admin are always
refused. -/
theorem C7_amended_location_write_rules (u : User) (s : Store)
    (hSA : u.isSuperAdmin = false) :
    (∀ req, LocationView.post u req s = ⟨HStatus.forbidden403, s⟩)
    ∧ (∀ qid, LocationView.delete u qid s = ⟨HStatus.forbidden403, s⟩)
    ∧ (u.isFranchiseAdmin = false →
        ∀ req, LocationView.patch u req s = ⟨HStatus.forbidden403, s⟩)
    ∧ (u.isFranchiseAdmin = true →
        ∀ (lid : Nat) (loc : Location) (req : LocationView.PatchReq),
        req.id = some lid → findLocation s lid = some loc →
        ((loc.id ∈ u.locations → (LocationView.patch u req s).status = HStatus.ok200)
         ∧ (loc.id ∉ u.locations →
             LocationView.patch u req s = ⟨HStatus.forbidden403, s⟩))) := by
  refine ⟨fun req => locationPost_denied u req s hSA,
    fun qid => locationDelete_denied u qid s hSA,
    fun hFA req => locationPatch_denied u req s hSA hFA,
    fun hFA lid loc req hid hfind => ?_⟩
  constructor
  · intro hmem
    simp [LocationView.patch, hSA, hFA, hid, hfind, hmem]
  · intro hmem
    simp [LocationView.patch, hSA, hFA, hid, hfind, hmem]

/-- Witness instantiating the amended C7 rules: the non-super-admin franchise
admin assigned location 1 updates location 1 with 200. -/
theorem C7_amended_witness :
    (LocationView.patch Fixtures.adminU ⟨some 1, some "Renamed", none, none, none, none⟩
      Fixtures.baseStore).status = HStatus.ok200 := by
  have h := C7_amended_location_write_rules Fixtures.adminU Fixtures.baseStore (by decide)
  exact (h.2.2.2 (by decide) 1 Fixtures.locA
    ⟨some 1, some "Renamed", none, none, none, none⟩ rfl (by decide)).1 (by decide)

/-- C8 counterexample: a super admin updates the staff member with
`location_ids` naming only the nonexistent location 99; the update succeeds
with 200 and leaves the staff member with an empty location set, violating the
claimed invariant that every successful update yields a non-empty set. -/
theorem C8_counterexample :
    (StaffView.patch Fixtures.superU ⟨some 20, none, none, none, some [99], none⟩
      Fixtures.baseStore).status = HStatus.ok200
    ∧ findStaff (StaffView.patch Fixtures.superU ⟨some 20, none, none, none, some [99], none⟩
        Fixtures.baseStore).store 20
      = some { Fixtures.staffT with locations := [] } := by
  refine ⟨by decide, by decide⟩

theorem applyUserFields_inv (req : FranchiseAdminView.PatchReq) (a : User) :
    (FranchiseAdminView.applyUserFields req a).id = a.id
    ∧ (FranchiseAdminView.applyUserFields req a).locations = a.locations
    ∧ (FranchiseAdminView.applyUserFields req a).isStaffMember = a.isStaffMember := by
  rcases req with ⟨i, f, l, e, lo, p⟩
  simp only [FranchiseAdminView.applyUserFields]
  cases f <;> cases l <;> cases e <;> cases p <;> exact ⟨rfl, rfl, rfl⟩

theorem existingLocations_map_ne_nil (s : Store) (ids : List Nat) (hne : ids ≠ [])
    (hexist : ∀ i ∈ ids, ∃ l ∈ s.locations, l.id = i) :
    (existingLocations s ids).map (fun l => l.id) ≠ [] := by
  cases hi : ids with
  | nil => exact absurd hi hne
  | cons i rest =>
    subst hi
    rcases hexist i (List.mem_cons_self _ _) with ⟨l, hl, hid⟩
    have hmem : l ∈ existingLocations s (i :: rest) := by
      simp only [existingLocations, List.mem_filter]
      exact ⟨hl, by simp [List.contains, List.elem_iff, hid]⟩
    exact List.ne_nil_of_mem (List.mem_map_of_mem _ hmem)

theorem mem_setUser_users (s : Store) (w v : User) (hv : v ∈ s.users) (hid : v.id = w.id) :
    w ∈ (s.setUser w).users := by
  simp only [Store.setUser]
  have hfv : (fun x => if x.id == w.id then w else x) v = w := by simp [hid]
  have hm := List.mem_map_of_mem (fun x => if x.id == w.id then w else x) hv
  rwa [hfv] at hm

/-- C8 amended: a staff create or update supplying an empty `location_ids`
list never succeeds and leaves the store unchanged (the create path reports
400); after a successful create the new staff member has a non-empty location
set, and after a successful update whose supplied location ids all exist in
the store the target keeps a non-empty location set. An update supplying only
nonexistent ids, however, succeeds and empties the set. -/
theorem C8_amended_staff_nonempty_locations (u : User) (s : Store) :
    (∀ e pw fn ln : Option String,
      StaffView.post u ⟨e, pw, fn, ln, some []⟩ s = ⟨HStatus.badRequest400, s⟩)
    ∧ (∀ req : FranchiseAdminView.PatchReq, req.locationIds = some [] →
        (StaffView.patch u req s).store = s
        ∧ (StaffView.patch u req s).status ≠ HStatus.ok200)
    ∧ (∀ req : StaffView.PostReq,
        (∀ i ∈ u.locations, ∃ l ∈ s.locations, l.id = i) →
        (StaffView.post u req s).status = HStatus.created201 →
        ∃ w, (StaffView.post u req s).store.users = s.users ++ [w]
          ∧ w.isStaffMember = true ∧ w.locations ≠ [])
    ∧ (∀ (req : FranchiseAdminView.PatchReq) (ids : List Nat) (tid : Nat) (tgt : User),
        req.locationIds = some ids →
        (∀ i ∈ ids, ∃ l ∈ s.locations, l.id = i) →
        req.id = some tid → findStaff s tid = some tgt →
        (StaffView.patch u req s).status = HStatus.ok200 →
        ∃ w ∈ (StaffView.patch u req s).store.users, w.id = tgt.id ∧ w.locations ≠ []) := by
  refine ⟨?_, ?_, ?_, ?_⟩
  · intro e pw fn ln
    cases e <;> cases pw <;> cases fn <;> cases ln <;> rfl
  · intro req hids
    rcases req with ⟨rid, f, l, e, lo, p⟩
    simp only at hids
    subst hids
    simp only [StaffView.patch]
    repeat' split
    all_goals first
      | exact ⟨rfl, by decide⟩
      | simp_all
  · intro req hexist hsucc
    rcases req with ⟨e, pw, fn, ln, lo⟩
    cases e <;> cases pw <;> cases fn <;> cases ln <;> cases lo <;>
      simp only [StaffView.post] at hsucc ⊢
    all_goals try cases hsucc
    case some.some.some.some.some e pw fn ln ids =>
    by_cases hemp : ids.isEmpty = true
    · simp [hemp] at hsucc
    · have hemp' : ids.isEmpty = false := by simpa using hemp
      have hne : ids ≠ [] := by
        cases ids with
        | nil => cases hemp'
        | cons a t => exact fun hc => List.noConfusion hc
      simp only [hemp', Bool.false_eq_true, if_false] at hsucc ⊢
      cases hSAb : u.isSuperAdmin with
      | true =>
        simp only [hSAb, if_true] at hsucc ⊢
        cases hlenb : ((existingLocations s ids).length != ids.length) with
        | true => simp [hlenb] at hsucc
        | false =>
          simp only [hlenb, Bool.false_eq_true, if_false] at hsucc ⊢
          refine ⟨_, rfl, rfl, ?_⟩
          intro hmapnil
          have hlocs : existingLocations s ids = [] := List.map_eq_nil_iff.mp hmapnil
          have hz : (0 : Nat) = ids.length := by
            have hb := bne_eq_false_iff_eq.mp hlenb
            simpa [hlocs] using hb
          cases ids with
          | nil => exact hne rfl
          | cons a t => cases hz
      | false =>
        simp only [hSAb, Bool.false_eq_true, if_false] at hsucc ⊢
        cases hFAb : u.isFranchiseAdmin with
        | false => simp [hFAb] at hsucc
        | true =>
          simp only [hFAb, if_true] at hsucc ⊢
          cases hallb : ids.all (fun i => u.locations.contains i) with
          | false =>
            have hx : ∃ x ∈ ids, x ∉ u.locations := by
              by_contra hc
              push_neg at hc
              rw [(allContains_iff _ _).mpr hc] at hallb
              cases hallb
            simp [hx] at hsucc
          | true =>
            simp only [hallb, Bool.not_true, Bool.false_eq_true, if_false] at hsucc ⊢
            refine ⟨_, rfl, rfl, ?_⟩
            exact existingLocations_map_ne_nil s ids hne
              (fun i hi => hexist i ((allContains_iff _ _).mp hallb i hi))
  · intro req ids tid tgt hlo hexist hid hfind hsucc
    rcases req with ⟨rid, f, l, e, lo, p⟩
    simp only at hlo hid
    subst hlo
    subst hid
    have hst' : u.isStaffMember = false := by
      by_contra hst
      have hst2 : u.isStaffMember = true := by simpa using hst
      simp [StaffView.patch, hst2] at hsucc
    simp only [StaffView.patch, hst', Bool.false_eq_true, if_false, hfind] at hsucc ⊢
    have htgt : tgt ∈ s.users := List.mem_of_find?_eq_some hfind
    by_cases hemp : ids.isEmpty = true
    · have hidsnil : ids = [] := by
        cases ids with
        | nil => rfl
        | cons a t => cases hemp
      subst hidsnil
      by_cases hFAb : u.isFranchiseAdmin = true
      · simp [hFAb] at hsucc
        split at hsucc <;> simp at hsucc
      · have hFAb' : u.isFranchiseAdmin = false := by simpa using hFAb
        simp [hFAb'] at hsucc
    · have hemp' : ids.isEmpty = false := by simpa using hemp
      have hne : ids ≠ [] := by
        cases ids with
        | nil => cases hemp'
        | cons a t => exact fun hc => List.noConfusion hc
      have hnonempty := existingLocations_map_ne_nil s ids hne hexist
      rcases applyUserFields_inv ⟨some tid, f, l, e, some ids, p⟩ tgt with ⟨hidEq, hlocEq, hstEq⟩
      by_cases hb1 : (u.isFranchiseAdmin
          && !(tgt.locations.any fun i => u.locations.contains i)) = true
      · rw [if_pos hb1] at hsucc
        simp at hsucc
      · rw [if_neg hb1] at hsucc ⊢
        by_cases hb2 : (u.isFranchiseAdmin && (some ids : Option (List Nat)).isSome
            && !((some ids : Option (List Nat)).getD []).all
                  fun i => u.locations.contains i) = true
        · rw [if_pos hb2] at hsucc
          simp at hsucc
        · rw [if_neg hb2] at hsucc ⊢
          by_cases hb3 : (u.isFranchiseAdmin
              && ((some ids : Option (List Nat)) == some ([] : List Nat))) = true
          · rw [if_pos hb3] at hsucc
            simp at hsucc
          · rw [if_neg hb3] at hsucc ⊢
            rw [if_neg hemp] at hsucc ⊢
            exact ⟨_, mem_setUser_users s _ tgt htgt hidEq.symm, hidEq, hnonempty⟩

/-- Witness instantiating the amended C8 rules: a super admin reassigns the
staff member to the existing location 2 and the resulting location set is
non-empty. -/
theorem C8_witness :
    ∃ w ∈ (StaffView.patch Fixtures.superU ⟨some 20, none, none, none, some [2], none⟩
        Fixtures.baseStore).store.users, w.id = Fixtures.staffT.id ∧ w.locations ≠ [] := by
  exact (C8_amended_staff_nonempty_locations Fixtures.superU Fixtures.baseStore).2.2.2
    ⟨some 20, none, none, none, some [2], none⟩ [2] 20 Fixtures.staffT rfl
    (by decide) rfl (by decide) (by decide)

/-- C9 counterexample: the claim says deleting a nonexistent id returns a
not-found error, but deleting the missing menu item 99 as a super admin
returns 400, because the Http404 raised inside the try block is caught by the
generic except clause. -/
theorem C9_counterexample :
    (MenuItemsView.delete Fixtures.superU (some 99) Fixtures.baseStore).status
      = HStatus.badRequest400
    ∧ HStatus.badRequest400 ≠ HStatus.notFound404 := by
  refine ⟨by decide, by decide⟩

/-- C9 amended: deleting a nonexistent id never succeeds and never changes the
store, for every resource kind, but the reported status differs: 404 for
locations, categories and staff accounts, 400 for menu items, 500 for admin
accounts. -/
theorem C9_amended_delete_missing_id (u : User) (s : Store) (i : Nat)
    (hSA : u.isSuperAdmin = true)
    (hauth : u.isAuthenticated = true)
    (hSt : u.isStaffMember = false) :
    (findLocation s i = none → LocationView.delete u (some i) s = ⟨HStatus.notFound404, s⟩)
    ∧ (i ≠ 0 → findCategory s i = none →
        CategoryView.delete u (some i) s = ⟨HStatus.notFound404, s⟩)
    ∧ (findMenuItem s i = none →
        MenuItemsView.delete u (some i) s = ⟨HStatus.badRequest400, s⟩)
    ∧ (findStaff s i = none → StaffView.delete u (some i) s = ⟨HStatus.notFound404, s⟩)
    ∧ (findFranchiseAdmin s i = none →
        FranchiseAdminView.delete u (some i) s = ⟨HStatus.serverError500, s⟩) := by
  refine ⟨?_, ?_, ?_, ?_, ?_⟩
  · intro h
    simp [LocationView.delete, hSA, h]
  · intro hne h
    have hz : (i == 0) = false := by simpa using hne
    simp [CategoryView.delete, hz, h]
  · intro h
    simp [MenuItemsView.delete, hSA, h]
  · intro h
    simp [StaffView.delete, h]
  · intro h
    simp [FranchiseAdminView.delete, hauth, hSt, hSA, h]

/-- Witness instantiating the amended C9 rules: a super admin deleting the
missing location 99 gets 404 with the store unchanged. -/
theorem C9_amended_witness :
    LocationView.delete Fixtures.superU (some 99) Fixtures.baseStore
      = ⟨HStatus.notFound404, Fixtures.baseStore⟩ := by
  exact (C9_amended_delete_missing_id Fixtures.superU Fixtures.baseStore 99
    (by decide) (by decide) (by decide)).1 (by decide)

theorem mem_existingLocations_map (s : Store) (ids : List Nat)
    (hexist : ∀ i ∈ ids, ∃ l ∈ s.locations, l.id = i) :
    ∀ x, x ∈ (existingLocations s ids).map (fun l => l.id) ↔ x ∈ ids := by
  intro x
  simp only [existingLocations, List.mem_map, List.mem_filter]
  constructor
  · rintro ⟨l, ⟨hl, hc⟩, rfl⟩
    simpa [List.contains, List.elem_iff] using hc
  · intro hx
    rcases hexist x hx with ⟨l, hl, rfl⟩
    exact ⟨l, ⟨hl, by simpa [List.contains, List.elem_iff] using hx⟩, rfl⟩

/-- C10: a franchise admin updating its own account with a non-empty list of
existing location ids succeeds, and its assigned set becomes exactly that
list, even when it contains locations not previously assigned: the scope check
on supplied location ids is skipped when the target is the requester. -/
theorem C10_self_update_skips_scope_check
    (u : User) (s : Store) (ids : List Nat)
    (hauth : u.isAuthenticated = true)
    (hFA : u.isFranchiseAdmin = true)
    (hSt : u.isStaffMember = false)
    (hfind : findFranchiseAdmin s u.id = some u)
    (hne : ids ≠ [])
    (hnodup : ids.Nodup)
    (hlocNodup : (s.locations.map (fun l => l.id)).Nodup)
    (hexist : ∀ i ∈ ids, ∃ l ∈ s.locations, l.id = i) :
    (FranchiseAdminView.patch u ⟨some u.id, none, none, none, some ids, none⟩ s).status
        = HStatus.ok200
    ∧ ∃ w ∈ (FranchiseAdminView.patch u ⟨some u.id, none, none, none, some ids, none⟩
          s).store.users,
        w.id = u.id ∧ ∀ i, (i ∈ w.locations ↔ i ∈ ids) := by
  have hempty : ids.isEmpty = false := by
    cases ids with
    | nil => exact absurd rfl hne
    | cons a l => rfl
  have hlen := existingLocations_length s ids hnodup hlocNodup hexist
  have humem : u ∈ s.users := List.mem_of_find?_eq_some hfind
  have hres : FranchiseAdminView.patch u ⟨some u.id, none, none, none, some ids, none⟩ s
      = ⟨HStatus.ok200,
          s.setUser { u with locations := (existingLocations s ids).map (fun l => l.id) }⟩ := by
    simp [FranchiseAdminView.patch, hauth, hSt, hFA, hfind, truthyList, hempty, hlen,
      FranchiseAdminView.applyUserFields]
  rw [hres]
  exact ⟨rfl, _, mem_setUser_users s _ u humem rfl, rfl,
    mem_existingLocations_map s ids hexist⟩

/-- Witness instantiating C10: the franchise admin assigned only location 1
reassigns itself locations 1 and 2, gaining location 2 that it did not have,
with 200. -/
theorem C10_witness :
    (FranchiseAdminView.patch Fixtures.adminU
      ⟨some Fixtures.adminU.id, none, none, none, some [1, 2], none⟩
      Fixtures.baseStore).status = HStatus.ok200 := by
  exact (C10_self_update_skips_scope_check Fixtures.adminU Fixtures.baseStore [1, 2]
    (by decide) (by decide) (by decide) (by decide) (by decide) (by decide) (by decide)
    (by decide)).1
